import Mathlib

/-!
Verification development for the IS-12/MS-05 conformance-test suite
(nmostesting/suites/IS1201Test.py).  The Python functions under study
operate on JSON-like descriptor data; they are embedded shallowly over a
JSON value type (`JValue`) defined as a mutual inductive family so that
every operation is structurally recursive and kernel-reducible.
Python dict lookup is modelled by association-list lookup (Python dicts
have unique keys), Python truthiness by `truthy`, raised exceptions by
`Except`, and the run-scoped mutable error metadata by explicit state
passed through and returned from each check.
-/

mutual
inductive JValue where
  | null : JValue
  | bool (b : Bool) : JValue
  | int (n : Int) : JValue
  | str (s : String) : JValue
  | arr (items : JList) : JValue
  | obj (fields : JFields) : JValue
deriving DecidableEq, Repr

inductive JList where
  | nil : JList
  | cons (head : JValue) (tail : JList) : JList
deriving DecidableEq, Repr

inductive JFields where
  | nil : JFields
  | cons (key : String) (value : JValue) (tail : JFields) : JFields
deriving DecidableEq, Repr
end

def JList.toList : JList → List JValue
  | .nil => []
  | .cons v t => v :: t.toList

def JList.isEmpty : JList → Bool
  | .nil => true
  | .cons _ _ => false

def JFields.toList : JFields → List (String × JValue)
  | .nil => []
  | .cons k v t => (k, v) :: t.toList

def JFields.keys : JFields → List String
  | .nil => []
  | .cons k _ t => k :: t.keys

def JFields.isEmpty : JFields → Bool
  | .nil => true
  | .cons _ _ _ => false

/-- Association-list lookup, first match wins; models Python dict indexing
(dicts built by the suite have unique keys). -/
def JFields.lookup : JFields → String → Option JValue
  | .nil, _ => none
  | .cons k v t, key => if k == key then some v else t.lookup key

/-- Python truthiness of a JSON value: None, False, 0, empty string, empty
list and empty dict are falsy, everything else truthy. -/
def truthy : JValue → Bool
  | .null => false
  | .bool b => b
  | .int n => n != 0
  | .str s => s != ""
  | .arr l => !l.isEmpty
  | .obj fs => !fs.isEmpty

/-- Models Python `d.get(key)` on a dict: `none` when the value is not a
dict or the key is absent. -/
def jget : JValue → String → Option JValue
  | .obj fs, k => fs.lookup k
  | _, _ => none

def optTruthy : Option JValue → Bool
  | some v => truthy v
  | none => false

/-- Models the idiom `if d.get(key):` -- present and truthy. -/
def getTruthy (v : JValue) (k : String) : Bool :=
  optTruthy (jget v k)

def JValue.isArr : JValue → Bool
  | .arr _ => true
  | _ => false

def JValue.isObj : JValue → Bool
  | .obj _ => true
  | _ => false

def JValue.items : JValue → JList
  | .arr l => l
  | _ => .nil

deriving instance DecidableEq for Except

/-- Python runtime exceptions raised by the embedded code paths. -/
inductive PyError where
  | keyError (key : String) : PyError
  | typeError : PyError
deriving DecidableEq, Repr

/-- Embeds `resolve_datatype` (IS1201Test.py lines 1428-1431).  The source
reads `datatype_descriptors[datatype]` (KeyError when absent) and, when the
descriptor declares a truthy `parentType`, recurses via
`self.resolve_datatype(self, parent, datatype_descriptors)`: the extra
positional `self` makes the bound-method call carry four arguments for a
three-parameter method, so that call raises TypeError unconditionally.
The TypeError is modelled as `Except.error PyError.typeError`. -/
def resolve_datatype (datatype : String) (datatype_descriptors : JFields) :
    Except PyError String :=
  match datatype_descriptors.lookup datatype with
  | none => .error (.keyError datatype)
  | some d =>
    if optTruthy (jget d "parentType") then .error .typeError
    else .ok datatype

/-- Modelled from the spec: `ResolveBaseType(typeName, catalog)` follows
`parentType` links until a datatype declares none, producing the root
primitive name.  The fuel argument bounds the chain length; the intended
recursion is absent from the source (see `resolve_datatype`). -/
def resolveBaseType (catalog : JFields) : Nat → String → Option String
  | 0, _ => none
  | fuel + 1, t =>
    match catalog.lookup t with
    | none => none
    | some d =>
      match jget d "parentType" with
      | some (.str p) => if p != "" then resolveBaseType catalog fuel p else some t
      | some v => if truthy v then none else some t
      | none => some t

/-- A two-entry datatype catalog: NcClassId inherits from the primitive
NcInt32. -/
def c1_catalog : JFields :=
  .cons "NcClassId"
    (.obj (.cons "name" (.str "NcClassId") (.cons "parentType" (.str "NcInt32") .nil)))
    (.cons "NcInt32" (.obj (.cons "name" (.str "NcInt32") .nil)) .nil)

/-- C1: resolve_datatype returns the type itself when its descriptor
declares no parentType, but on any datatype whose descriptor declares a
parentType it raises TypeError (the recursive call passes an extra self
argument) instead of following the chain to the root primitive, which the
intended resolution (resolveBaseType, modelled from the spec) produces. -/
theorem C1_resolve_datatype_code_bug :
    resolve_datatype "NcInt32" c1_catalog = .ok "NcInt32" ∧
    resolve_datatype "NcClassId" c1_catalog = .error .typeError ∧
    resolveBaseType c1_catalog 2 "NcClassId" = some "NcInt32" := by
  decide

/-- Raised conditions escaping `check_constraint`: a failed default-value
schema validation (NMOSTestException from `_validate_schema`) or a Python
error raised inside `resolve_datatype`. -/
inductive CCError where
  | schemaFail (value : JValue) : CCError
  | py (e : PyError) : CCError
deriving DecidableEq, Repr

/-- One `test_metadata` accumulator as set up in `set_up_tests`: the
`checked` flag is irrelevant to the embedded paths and omitted. -/
structure Metadata where
  error : Bool
  error_msg : String
deriving DecidableEq, Repr

/-- The eight fixed-width numeric primitive names accepted for
minimum/maximum/step constraints (IS1201Test.py lines 1454-1455). -/
def numeric_primitives : List String :=
  ["NcInt16", "NcInt32", "NcInt64", "NcUint16", "NcUint32", "NcUint64", "NcFloat32", "NcFloat64"]

/-- The six fixed-width integer primitive names (a subset of
`numeric_primitives`). -/
def integer_primitives : List String :=
  ["NcInt16", "NcInt32", "NcInt64", "NcUint16", "NcUint32", "NcUint64"]

/-- Validates a list of values against the datatype schema
(`_validate_schema` per element, abstracted by the oracle `schemaOk`);
returns the values submitted, or the first failing value as an error. -/
def validate_values (schemaOk : JValue → Bool) : JList → Except CCError (List JValue)
  | .nil => .ok []
  | .cons v t =>
    if schemaOk v then
      match validate_values schemaOk t with
      | .ok checked => .ok (v :: checked)
      | .error e => .error e
    else .error (.schemaFail v)

/-- The two legality checks closing `check_constraint` (lines 1452-1464):
numeric-range fields demand one of the eight numeric primitives, string
fields demand NcString; each failing check overwrites the metadata. -/
def check_constraint_ranges (constraint : JValue) (datatype : String)
    (constraint_type context : String) (meta : Metadata) : Metadata :=
  let meta1 :=
    if getTruthy constraint "minimum" || getTruthy constraint "maximum" ||
        getTruthy constraint "step" then
      if !(numeric_primitives.contains datatype) then
        { error := true,
          error_msg := context ++ " of type " ++ datatype ++ " can not be constrainted by "
            ++ constraint_type ++ "." }
      else meta
    else meta
  if getTruthy constraint "maxCharacters" || getTruthy constraint "pattern" then
    if !(["NcString"].contains datatype) then
      { error := true,
        error_msg := context ++ "of type " ++ datatype ++ " can not be constrainted by "
          ++ constraint_type ++ "." }
    else meta1
  else meta1

/-- Embeds `check_constraint` (lines 1433-1464).  Returns the updated
metadata together with the list of values submitted to default-value
schema validation; `_validate_schema` is abstracted by the oracle
`schemaOk` and a failure raises.  A truthy `defaultValue` whose
list-ness disagrees with `is_sequence` records a defect and returns
early, skipping datatype resolution and both legality checks. -/
def check_constraint (constraint : JValue) (type_name : String)
    (datatype_descriptors : JFields) (schemaOk : JValue → Bool) (is_sequence : Bool)
    (constraint_type context : String) (meta : Metadata) :
    Except CCError (Metadata × List JValue) :=
  if getTruthy constraint "defaultValue" then
    match jget constraint "defaultValue" with
    | some dv =>
      if dv.isArr != is_sequence then
        .ok ({ error := true,
               error_msg := context ++ (if is_sequence then " a default value sequence was expected"
                                        else " unexpected default value sequence.") }, [])
      else
        match validate_values schemaOk (if is_sequence then dv.items else .cons dv .nil) with
        | .error e => .error e
        | .ok checked =>
          match resolve_datatype type_name datatype_descriptors with
          | .error e => .error (.py e)
          | .ok datatype =>
            .ok (check_constraint_ranges constraint datatype constraint_type context meta, checked)
    | none =>
      match resolve_datatype type_name datatype_descriptors with
      | .error e => .error (.py e)
      | .ok datatype =>
        .ok (check_constraint_ranges constraint datatype constraint_type context meta, [])
  else
    match resolve_datatype type_name datatype_descriptors with
    | .error e => .error (.py e)
    | .ok datatype =>
      .ok (check_constraint_ranges constraint datatype constraint_type context meta, [])

/-- The recorded-defect flag of a `check_constraint` outcome, `none` when
the call raised. -/
def ccErrorFlag : Except CCError (Metadata × List JValue) → Option Bool
  | .ok (m, _) => some m.error
  | .error _ => none

theorem check_constraint_no_default (constraint : JValue) (type_name base : String)
    (dd : JFields) (schemaOk : JValue → Bool) (is_sequence : Bool) (ct ctx : String)
    (meta : Metadata) (hres : resolve_datatype type_name dd = .ok base)
    (hdv : getTruthy constraint "defaultValue" = false) :
    check_constraint constraint type_name dd schemaOk is_sequence ct ctx meta =
      .ok (check_constraint_ranges constraint base ct ctx meta, []) := by
  simp [check_constraint, hdv, hres]

theorem check_constraint_ranges_numeric_defect (constraint : JValue) (base ct ctx : String)
    (meta : Metadata)
    (hc : (getTruthy constraint "minimum" || getTruthy constraint "maximum" ||
      getTruthy constraint "step") = true)
    (hb : numeric_primitives.contains base = false) :
    (check_constraint_ranges constraint base ct ctx meta).error = true := by
  have hb2 : base ∉ numeric_primitives := by simpa using hb
  simp [check_constraint_ranges, hc, hb2]
  split
  · split <;> rfl
  · rfl

theorem check_constraint_ranges_string_defect (constraint : JValue) (base ct ctx : String)
    (meta : Metadata)
    (hc : (getTruthy constraint "maxCharacters" || getTruthy constraint "pattern") = true)
    (hb : List.contains ["NcString"] base = false) :
    (check_constraint_ranges constraint base ct ctx meta).error = true := by
  have hb2 : ¬(base = "NcString") := by
    intro h
    subst h
    simp [List.contains] at hb
  simp [check_constraint_ranges, hc, hb2]

theorem check_constraint_ranges_clean (constraint : JValue) (base ct ctx : String)
    (meta : Metadata)
    (hnum : numeric_primitives.contains base = true)
    (hs : getTruthy constraint "maxCharacters" = false)
    (hp : getTruthy constraint "pattern" = false) :
    check_constraint_ranges constraint base ct ctx meta = meta := by
  have hnum2 : base ∈ numeric_primitives := by simpa using hnum
  simp [check_constraint_ranges, hs, hp, hnum2]

/-- C2: with the datatype resolution succeeding (base type `base`) and no
truthy defaultValue in play, check_constraint records a defect when a
truthy minimum, maximum or step meets a base type outside the eight
fixed-width numeric primitives; records a defect when a truthy
maxCharacters or pattern meets a base type other than NcString; and
records no defect (metadata returned untouched) when truthy
minimum/maximum/step constraints meet an integer-primitive base type with
no string constraint present. -/
theorem C2_check_constraint_legality (constraint : JValue) (type_name base : String)
    (dd : JFields) (schemaOk : JValue → Bool) (is_sequence : Bool) (ct ctx : String)
    (meta : Metadata) (hres : resolve_datatype type_name dd = .ok base)
    (hdv : getTruthy constraint "defaultValue" = false) :
    (((getTruthy constraint "minimum" || getTruthy constraint "maximum" ||
        getTruthy constraint "step") = true ∧ numeric_primitives.contains base = false) →
      ccErrorFlag (check_constraint constraint type_name dd schemaOk is_sequence ct ctx meta) =
        some true) ∧
    (((getTruthy constraint "maxCharacters" || getTruthy constraint "pattern") = true ∧
        List.contains ["NcString"] base = false) →
      ccErrorFlag (check_constraint constraint type_name dd schemaOk is_sequence ct ctx meta) =
        some true) ∧
    (((getTruthy constraint "minimum" || getTruthy constraint "maximum" ||
        getTruthy constraint "step") = true ∧ integer_primitives.contains base = true ∧
        getTruthy constraint "maxCharacters" = false ∧ getTruthy constraint "pattern" = false) →
      check_constraint constraint type_name dd schemaOk is_sequence ct ctx meta =
        .ok (meta, [])) := by
  rw [check_constraint_no_default constraint type_name base dd schemaOk is_sequence ct ctx meta
    hres hdv]
  refine ⟨?_, ?_, ?_⟩
  · rintro ⟨hc, hb⟩
    simp [ccErrorFlag, check_constraint_ranges_numeric_defect constraint base ct ctx meta hc hb]
  · rintro ⟨hc, hb⟩
    simp [ccErrorFlag, check_constraint_ranges_string_defect constraint base ct ctx meta hc hb]
  · rintro ⟨hc, hint, hs, hp⟩
    have hnum : numeric_primitives.contains base = true := by
      revert hint
      simp [numeric_primitives, integer_primitives]
      tauto
    rw [check_constraint_ranges_clean constraint base ct ctx meta hnum hs hp]

/-- Witness for C2 at concrete inputs: a minimum of 1 on a string-resolved
type records a defect, a pattern on an NcInt32-resolved type records a
defect, and a minimum of 1 on an NcInt32-resolved type leaves the
metadata untouched. -/
theorem C2_check_constraint_legality_witness :
    ccErrorFlag (check_constraint (.obj (.cons "minimum" (.int 1) .nil)) "NcString"
      (.cons "NcString" (.obj (.cons "name" (.str "NcString") .nil)) .nil)
      (fun _ => true) false "NcParameterConstraintsNumber" "p" ⟨false, ""⟩) = some true ∧
    ccErrorFlag (check_constraint (.obj (.cons "pattern" (.str "^a") .nil)) "NcInt32"
      c1_catalog (fun _ => true) false "NcParameterConstraintsNumber" "p" ⟨false, ""⟩) =
      some true ∧
    check_constraint (.obj (.cons "minimum" (.int 1) .nil)) "NcInt32"
      c1_catalog (fun _ => true) false "NcParameterConstraintsNumber" "p" ⟨false, ""⟩ =
      .ok (⟨false, ""⟩, []) := by
  refine ⟨?_, ?_, ?_⟩
  · exact (C2_check_constraint_legality (.obj (.cons "minimum" (.int 1) .nil)) "NcString"
      "NcString" (.cons "NcString" (.obj (.cons "name" (.str "NcString") .nil)) .nil)
      (fun _ => true) false "NcParameterConstraintsNumber" "p" ⟨false, ""⟩
      (by decide) (by decide)).1 (by decide)
  · exact (C2_check_constraint_legality (.obj (.cons "pattern" (.str "^a") .nil)) "NcInt32"
      "NcInt32" c1_catalog
      (fun _ => true) false "NcParameterConstraintsNumber" "p" ⟨false, ""⟩
      (by decide) (by decide)).2.1 (by decide)
  · exact (C2_check_constraint_legality (.obj (.cons "minimum" (.int 1) .nil)) "NcInt32"
      "NcInt32" c1_catalog
      (fun _ => true) false "NcParameterConstraintsNumber" "p" ⟨false, ""⟩
      (by decide) (by decide)).2.2 (by decide)

/-- C10: check_constraint treats each constraint field as present only
when truthy: when minimum, maximum and step are each absent or zero,
maxCharacters absent or zero, pattern absent or empty, and defaultValue
falsy, the call records no defect for any resolved base type, performs no
default-value schema validation, and returns the metadata untouched. -/
theorem C10_falsy_constraint_fields_skipped (constraint : JValue) (type_name base : String)
    (dd : JFields) (schemaOk : JValue → Bool) (is_sequence : Bool) (ct ctx : String)
    (meta : Metadata)
    (hres : resolve_datatype type_name dd = .ok base)
    (hmin : getTruthy constraint "minimum" = false)
    (hmax : getTruthy constraint "maximum" = false)
    (hstep : getTruthy constraint "step" = false)
    (hmc : getTruthy constraint "maxCharacters" = false)
    (hpat : getTruthy constraint "pattern" = false)
    (hdv : getTruthy constraint "defaultValue" = false) :
    check_constraint constraint type_name dd schemaOk is_sequence ct ctx meta =
      .ok (meta, []) := by
  rw [check_constraint_no_default constraint type_name base dd schemaOk is_sequence ct ctx meta
    hres hdv]
  simp [check_constraint_ranges, hmin, hmax, hstep, hmc, hpat]

/-- A constraint set whose range and string fields are all present but
falsy: zero bounds, zero maxCharacters, empty pattern. -/
def c10_constraint : JValue :=
  .obj (.cons "minimum" (.int 0) (.cons "maximum" (.int 0) (.cons "step" (.int 0)
    (.cons "maxCharacters" (.int 0) (.cons "pattern" (.str "") .nil)))))

/-- Witness for C10: the all-falsy range constraint on a string-resolved
type records nothing even with an always-failing schema oracle. -/
theorem C10_falsy_constraint_fields_skipped_witness :
    check_constraint c10_constraint "NcString"
      (.cons "NcString" (.obj (.cons "name" (.str "NcString") .nil)) .nil)
      (fun _ => false) false "NcParameterConstraintsNumber" "p" ⟨false, ""⟩ =
      .ok (⟨false, ""⟩, []) :=
  C10_falsy_constraint_fields_skipped c10_constraint "NcString" "NcString"
    (.cons "NcString" (.obj (.cons "name" (.str "NcString") .nil)) .nil)
    (fun _ => false) false "NcParameterConstraintsNumber" "p" ⟨false, ""⟩
    (by decide) (by decide) (by decide) (by decide) (by decide) (by decide) (by decide)

/-- The fields of a reference class-property descriptor that
`check_object_properties` reads; reference descriptors satisfy the
NcPropertyDescriptor schema, so they are modelled structurally. -/
structure PropMeta where
  id : JValue
  name : String
  typeName : String
  isSequence : Bool
  isNullable : Bool
deriving DecidableEq, Repr

/-- Embeds `get_property` (lines 423-433): a transport read that raises is
recorded as a device-model error message and yields None; the message is
modelled as the context followed by the exception detail (the numeric
property-id rendering is elided). -/
def get_property_checked (read : JValue → Except String JValue) (property_id : JValue)
    (context : String) (errs : List String) : Option JValue × List String :=
  match read property_id with
  | .ok v => (some v, errs)
  | .error detail =>
    (none, errs ++ [context ++ "Error getting property: " ++ detail ++ "; "])

/-- Exceptions escaping `check_object_properties`: a property value that
fails `validate_property_type` (abstracted by the oracle), or iterating a
non-list value of a sequence-typed property. -/
inductive COPError where
  | vptFail (value : JValue) (typeName : String) : COPError
  | typeError : COPError
deriving DecidableEq, Repr

/-- Observable effects of a `check_object_properties` run: device-model
error messages, the (typeName, value) pairs submitted to
`validate_property_type`, and the property names for which
`check_sequence_methods` ran. -/
structure COPState where
  dmErrors : List String
  typeChecks : List (String × JValue)
  seqChecks : List String
deriving DecidableEq, Repr

/-- Per-element type validation of a sequence property value (the inner
loop of the isSequence branch). -/
def validate_seq_values (vpt : JValue → String → Bool → Bool) (typeName : String)
    (isNullable : Bool) : JList → Except COPError (List (String × JValue))
  | .nil => .ok []
  | .cons v t =>
    if vpt v typeName isNullable then
      match validate_seq_values vpt typeName isNullable t with
      | .ok checked => .ok ((typeName, v) :: checked)
      | .error e => .error e
    else .error (.vptFail v typeName)

/-- Embeds `check_object_properties` (lines 435-463): reads each class
property through `get_property`, skips the rest of the iteration whenever
the value read is falsy, and otherwise type-validates the value (each
element, plus the sequence-method checks, for sequence properties).
`validate_property_type` is abstracted by the oracle `vpt`. -/
def check_object_properties (read : JValue → Except String JValue)
    (vpt : JValue → String → Bool → Bool) (context : String) :
    List PropMeta → COPState → Except COPError COPState
  | [], st => .ok st
  | p :: rest, st =>
    match get_property_checked read p.id context st.dmErrors with
    | (none, errs) =>
      check_object_properties read vpt context rest { st with dmErrors := errs }
    | (some v, errs) =>
      if !truthy v then
        check_object_properties read vpt context rest { st with dmErrors := errs }
      else if p.isSequence then
        match v with
        | .arr l =>
          match validate_seq_values vpt p.typeName p.isNullable l with
          | .error e => .error e
          | .ok checked =>
            check_object_properties read vpt context rest
              { dmErrors := errs, typeChecks := st.typeChecks ++ checked,
                seqChecks := st.seqChecks ++ [p.name] }
        | _ => .error .typeError
      else
        if vpt v p.typeName p.isNullable then
          check_object_properties read vpt context rest
            { dmErrors := errs, typeChecks := st.typeChecks ++ [(p.typeName, v)],
              seqChecks := st.seqChecks }
        else .error (.vptFail v p.typeName)

/-- C9: when every successful property read yields a falsy value (null,
zero, empty string, False, empty list), check_object_properties performs
no type validation and no sequence-method check at all, and the only
device-model errors recorded are those of failed reads -- a non-nullable
property reading null or an empty sequence is skipped silently. -/
theorem C9_falsy_property_values_skipped (read : JValue → Except String JValue)
    (vpt : JValue → String → Bool → Bool) (context : String) (props : List PropMeta)
    (errs0 : List String) (tc0 : List (String × JValue)) (sc0 : List String)
    (hfalsy : props.all (fun p =>
      match read p.id with
      | .ok v => !truthy v
      | .error _ => true) = true) :
    check_object_properties read vpt context props ⟨errs0, tc0, sc0⟩ =
      .ok ⟨errs0 ++ props.filterMap (fun p =>
        match read p.id with
        | .error detail => some (context ++ "Error getting property: " ++ detail ++ "; ")
        | .ok _ => none), tc0, sc0⟩ := by
  induction props generalizing errs0 with
  | nil => simp [check_object_properties]
  | cons p rest ih =>
    simp only [List.all_cons, Bool.and_eq_true] at hfalsy
    obtain ⟨hp, hrest⟩ := hfalsy
    cases hr : read p.id with
    | error d =>
      rw [hr] at hp
      simp [check_object_properties, get_property_checked, hr, ih _ hrest]
    | ok v =>
      rw [hr] at hp
      simp only [Bool.not_eq_true'] at hp
      simp [check_object_properties, get_property_checked, hr, hp, ih _ hrest]

/-- Witness for C9: one property whose read fails and one non-nullable
property reading null; only the failed read leaves a trace. -/
theorem C9_falsy_property_values_skipped_witness :
    check_object_properties
      (fun pid => if pid = .int 1 then .error "timeout" else .ok .null)
      (fun _ _ _ => false) "root: "
      [⟨.int 1, "alpha", "NcString", false, true⟩, ⟨.int 2, "beta", "NcString", false, false⟩]
      ⟨[], [], []⟩ =
      .ok ⟨["root: Error getting property: timeout; "], [], []⟩ := by
  have h := C9_falsy_property_values_skipped
    (fun pid => if pid = .int 1 then .error "timeout" else .ok .null)
    (fun _ _ _ => false) "root: "
    [⟨.int 1, "alpha", "NcString", false, true⟩, ⟨.int 2, "beta", "NcString", false, false⟩]
    [] [] [] (by decide)
  simpa using h

/-- Failures raised by the per-path body of `do_find_member_by_path_test`. -/
inductive PathError where
  | notAnArray (context blockRole : String) (rolePath : List String) : PathError
  | schemaFail (value : JValue) : PathError
  | incorrectCount (context blockRole : String) (rolePath : List String) : PathError
  | oidMissing (context blockRole : String) (rolePath : List String) : PathError
  | keyErr : PathError
deriving DecidableEq, Repr

/-- Schema validation of every queried member descriptor (the loop at
lines 1008-1014), abstracted by the oracle `schemaOk`. -/
def validate_member_schemas (schemaOk : JValue → Bool) : JList → Except PathError Unit
  | .nil => .ok ()
  | .cons m t =>
    if schemaOk m then validate_member_schemas schemaOk t else .error (.schemaFail m)

/-- The oid extraction `[m['oid'] for m in queried_members]` (line 1021);
a member without an oid key raises KeyError. -/
def memberOids : JList → Except PathError (List JValue)
  | .nil => .ok []
  | .cons m t =>
    match jget m "oid" with
    | some v =>
      match memberOids t with
      | .ok rest => .ok (v :: rest)
      | .error e => .error e
    | none => .error .keyErr

/-- Embeds the per-role-path body of `do_find_member_by_path_test` (lines
996-1027).  `expected_oid` is the oid of the member that the local device
model resolves for the same role path (the ground truth
`block.find_members_by_path`, implemented outside this suite); `queried`
is the remote response. -/
def find_member_by_path_check (expected_oid : Int) (queried : JValue)
    (schemaOk : JValue → Bool) (context blockRole : String) (rolePath : List String) :
    Except PathError Unit :=
  match queried with
  | .arr l =>
    match validate_member_schemas schemaOk l with
    | .error e => .error e
    | .ok () =>
      if l.toList.length != 1 then .error (.incorrectCount context blockRole rolePath)
      else
        match memberOids l with
        | .error e => .error e
        | .ok oids =>
          if oids.contains (.int expected_oid) then .ok ()
          else .error (.oidMissing context blockRole rolePath)
  | _ => .error (.notAnArray context blockRole rolePath)

/-- C7: the per-path check succeeds exactly when the remote query returned
a list containing a single schema-valid member descriptor whose oid equals
the oid of the locally resolved member; a non-list result, a count other
than one, or a result whose oid set misses the local oid fails. -/
theorem C7_find_member_by_path_parity (expected_oid : Int) (queried : JValue)
    (schemaOk : JValue → Bool) (context blockRole : String) (rolePath : List String) :
    find_member_by_path_check expected_oid queried schemaOk context blockRole rolePath =
        .ok () ↔
      ∃ m, queried = .arr (.cons m .nil) ∧ schemaOk m = true ∧
        jget m "oid" = some (.int expected_oid) := by
  cases queried with
  | arr l =>
    cases l with
    | nil => simp [find_member_by_path_check, validate_member_schemas, JList.toList]
    | cons m t =>
      cases t with
      | nil =>
        cases hs : schemaOk m with
        | false => simp [find_member_by_path_check, validate_member_schemas, hs]
        | true =>
          cases ho : jget m "oid" with
          | none =>
            simp [find_member_by_path_check, validate_member_schemas, memberOids,
              JList.toList, hs, ho]
          | some v =>
            simp [find_member_by_path_check, validate_member_schemas, memberOids,
              JList.toList, hs, ho]
            constructor
            · intro h
              simpa using h.symm
            · intro h
              simpa using h.symm
      | cons m2 t2 =>
        cases hv : validate_member_schemas schemaOk (.cons m (.cons m2 t2)) with
        | error e => simp [find_member_by_path_check, hv]
        | ok u => simp [find_member_by_path_check, hv, JList.toList]
  | null => simp [find_member_by_path_check]
  | bool b => simp [find_member_by_path_check]
  | int n => simp [find_member_by_path_check]
  | str s => simp [find_member_by_path_check]
  | obj fs => simp [find_member_by_path_check]

/-- Modelled from the spec: a MemberDescriptor as advertised by a
containing block (section 3): classId, oid, role, owner. -/
structure MemberDesc where
  classId : List Int
  oid : Int
  role : String
  owner : Int
deriving DecidableEq, Repr

mutual
/-- Modelled from the spec: the mirrored device-model block walked by
check_block -- its advertised member descriptors plus the built child
objects (only the structure that check_block traverses is kept). -/
inductive NcBlockT where
  | mk (oid : Int) (role : String) (memberDescriptors : List MemberDesc)
      (children : NcChildren) : NcBlockT
deriving DecidableEq, Repr

/-- Modelled from the spec: the child-object list of a block; non-block
children carry no structure relevant to the walk. -/
inductive NcChildren where
  | nil : NcChildren
  | obj (oid : Int) (role : String) (rest : NcChildren) : NcChildren
  | block (b : NcBlockT) (rest : NcChildren) : NcChildren
deriving DecidableEq, Repr
end

/-- The two manager-related defect flags from `set_up_tests`. -/
structure ManagerState where
  managers_members_root_block_error : Bool
  managers_are_singletons_error : Bool
deriving DecidableEq, Repr

/-- Embeds `check_manager` (lines 479-492).  `is_manager` and the
composition of `get_base_class_id` with the class-descriptor name lookup
live in IS12Utils outside this suite and are abstracted as parameters. -/
def check_manager (is_manager : List Int → Bool) (base_class_name : List Int → String)
    (root_oid : Int) (classId : List Int) (owner : Int)
    (st : ManagerState) (manager_cache : List String) : ManagerState × List String :=
  if is_manager classId then
    let st1 :=
      if owner != root_oid then { st with managers_members_root_block_error := true } else st
    if manager_cache.contains (base_class_name classId) then
      ({ st1 with managers_are_singletons_error := true }, manager_cache)
    else (st1, manager_cache ++ [base_class_name classId])
  else (st, manager_cache)

/-- The member-descriptor loop of `check_block` restricted to its manager
checks, threading the per-block `manager_cache`. -/
def check_members (is_manager : List Int → Bool) (base_class_name : List Int → String)
    (root_oid : Int) : List MemberDesc → ManagerState → List String →
    ManagerState × List String
  | [], st, cache => (st, cache)
  | m :: rest, st, cache =>
    let next := check_manager is_manager base_class_name root_oid m.classId m.owner st cache
    check_members is_manager base_class_name root_oid rest next.1 next.2

mutual
/-- Embeds the manager-relevant slice of `check_block` (lines 515-537):
child blocks are recursed into first, then the member descriptors are
checked against a `manager_cache` that is freshly emptied for each block
(line 524).  The orthogonal per-member checks (schema, role and oid
uniqueness, touchpoints, object properties) touch disjoint state and are
omitted. -/
def check_block_managers (f : List Int → Bool) (g : List Int → String) (root_oid : Int) :
    NcBlockT → ManagerState → ManagerState
  | .mk _ _ members children, st =>
    (check_members f g root_oid members (check_block_children f g root_oid children st) []).1

/-- The recursion of `check_block` over the child-object list. -/
def check_block_children (f : List Int → Bool) (g : List Int → String) (root_oid : Int) :
    NcChildren → ManagerState → ManagerState
  | .nil, st => st
  | .obj _ _ rest, st => check_block_children f g root_oid rest st
  | .block b rest, st =>
    check_block_children f g root_oid rest (check_block_managers f g root_oid b st)
end

/-- The base manager type names of the manager-classed members of one
member-descriptor list. -/
def managerBases (f : List Int → Bool) (g : List Int → String) (ms : List MemberDesc) :
    List String :=
  (ms.filter (fun m => f m.classId)).map (fun m => g m.classId)

/-- Does a name occur twice in the list. -/
def hasDupNames : List String → Bool
  | [] => false
  | n :: t => t.contains n || hasDupNames t

/-- Duplicate detection as the cache loop performs it: a name already in
the cache trips, otherwise it is appended. -/
def hasDupFrom : List String → List String → Bool
  | _, [] => false
  | c, n :: t => c.contains n || hasDupFrom (if c.contains n then c else c ++ [n]) t

/-- Does the member list hold a manager member whose owner is not the
root-block oid. -/
def anyBadOwner (f : List Int → Bool) (root_oid : Int) (ms : List MemberDesc) : Bool :=
  ms.any (fun m => f m.classId && m.owner != root_oid)

mutual
/-- Some block of the tree advertises a manager member not owned by the
root block. -/
def treeBadOwner (f : List Int → Bool) (root_oid : Int) : NcBlockT → Bool
  | .mk _ _ members children =>
    childrenBadOwner f root_oid children || anyBadOwner f root_oid members

def childrenBadOwner (f : List Int → Bool) (root_oid : Int) : NcChildren → Bool
  | .nil => false
  | .obj _ _ rest => childrenBadOwner f root_oid rest
  | .block b rest => treeBadOwner f root_oid b || childrenBadOwner f root_oid rest
end

mutual
/-- Some single block of the tree advertises two manager members sharing a
base manager type. -/
def treeDupManagers (f : List Int → Bool) (g : List Int → String) : NcBlockT → Bool
  | .mk _ _ members children =>
    childrenDupManagers f g children || hasDupNames (managerBases f g members)

def childrenDupManagers (f : List Int → Bool) (g : List Int → String) : NcChildren → Bool
  | .nil => false
  | .obj _ _ rest => childrenDupManagers f g rest
  | .block b rest => treeDupManagers f g b || childrenDupManagers f g rest
end

mutual
/-- Every member descriptor advertised anywhere in the tree. -/
def allMemberDescs : NcBlockT → List MemberDesc
  | .mk _ _ members children => childrenMemberDescs children ++ members

def childrenMemberDescs : NcChildren → List MemberDesc
  | .nil => []
  | .obj _ _ rest => childrenMemberDescs rest
  | .block b rest => allMemberDescs b ++ childrenMemberDescs rest
end

/-- A tree whose root block and child block each hold one manager member
of the same base manager type, both owned by the root block. -/
def c4_tree : NcBlockT :=
  .mk 1 "root"
    [⟨[1, 3, 2], 10, "manager1", 1⟩, ⟨[1, 1], 2, "branch", 1⟩]
    (.block (.mk 2 "branch" [⟨[1, 3, 2], 11, "manager2", 1⟩] .nil) .nil)

/-- C4 counterexample: the tree above holds two manager members of the
same base manager type, yet the full walk leaves
managers_are_singletons_error clear, because the manager cache is emptied
for every block -- duplicates across different blocks are not detected. -/
theorem C4_counterexample_cross_block_managers :
    check_block_managers (fun c => c == [1, 3, 2]) (fun _ => "NcManager") 1 c4_tree
        ⟨false, false⟩ = ⟨false, false⟩ ∧
    ((allMemberDescs c4_tree).filter (fun m => m.classId == [1, 3, 2])).length = 2 := by
  decide

theorem contains_mem_true (c : List String) (n : String) (h : n ∈ c) :
    c.contains n = true := by
  simpa [List.contains, List.elem_eq_mem] using h

theorem contains_mem_false (c : List String) (n : String) (h : ¬(n ∈ c)) :
    c.contains n = false := by
  simpa [List.contains, List.elem_eq_mem] using h

theorem any_contains_append (t c : List String) (n : String) :
    (t.any fun x => (c ++ [n]).contains x) =
      ((t.any fun x => c.contains x) || t.contains n) := by
  rw [Bool.eq_iff_iff]
  simp only [List.any_eq_true, Bool.or_eq_true, List.contains, List.elem_eq_mem,
    decide_eq_true_eq, List.mem_append, List.mem_singleton]
  constructor
  · rintro ⟨x, hx, hc | he⟩
    · exact Or.inl ⟨x, hx, hc⟩
    · subst he
      exact Or.inr hx
  · rintro (⟨x, hx, hc⟩ | hn)
    · exact ⟨x, hx, Or.inl hc⟩
    · exact ⟨n, hn, Or.inr rfl⟩

theorem any_contains_nil : ∀ (l : List String),
    (l.any fun x => ([] : List String).contains x) = false
  | [] => rfl
  | x :: xs => by
    rw [List.any_cons, any_contains_nil xs]
    rfl

theorem hasDupFrom_eq :
    ∀ (t c : List String), hasDupFrom c t = (t.any c.contains || hasDupNames t) := by
  intro t
  induction t with
  | nil =>
    intro c
    simp [hasDupFrom, hasDupNames]
  | cons n t ih =>
    intro c
    by_cases hn : n ∈ c
    · have h1 : c.contains n = true := contains_mem_true c n hn
      simp [hasDupFrom, hasDupNames, List.any_cons, h1, hn]
    · have h1 : c.contains n = false := contains_mem_false c n hn
      show (c.contains n || hasDupFrom (if c.contains n then c else c ++ [n]) t) = _
      rw [h1]
      show (false || hasDupFrom (c ++ [n]) t) = _
      rw [Bool.false_or, ih (c ++ [n]), any_contains_append]
      have he : (t.any c.contains) = t.any fun x => decide (x ∈ c) := by
        congr 1
        funext x
        simp [List.contains, List.elem_eq_mem]
      simp [hasDupNames, List.any_cons, h1, hn, he, Bool.or_assoc]

theorem check_manager_not_manager (f : List Int → Bool) (g : List Int → String)
    (root_oid : Int) (classId : List Int) (owner : Int) (st : ManagerState)
    (cache : List String) (h : f classId = false) :
    check_manager f g root_oid classId owner st cache = (st, cache) := by
  simp [check_manager, h]

theorem check_manager_manager (f : List Int → Bool) (g : List Int → String)
    (root_oid : Int) (classId : List Int) (owner : Int) (e1 e2 : Bool)
    (cache : List String) (h : f classId = true) :
    check_manager f g root_oid classId owner ⟨e1, e2⟩ cache =
      (⟨e1 || (owner != root_oid), e2 || cache.contains (g classId)⟩,
       if cache.contains (g classId) then cache else cache ++ [g classId]) := by
  by_cases hme : g classId ∈ cache
  · have hcc : cache.contains (g classId) = true := contains_mem_true _ _ hme
    cases ho : (owner != root_oid) <;> simp [check_manager, h, ho, hcc, hme]
  · have hcc : cache.contains (g classId) = false := contains_mem_false _ _ hme
    cases ho : (owner != root_oid) <;> simp [check_manager, h, ho, hcc, hme]

theorem check_members_spec (f : List Int → Bool) (g : List Int → String) (root_oid : Int) :
    ∀ (ms : List MemberDesc) (st : ManagerState) (cache : List String),
      (check_members f g root_oid ms st cache).1 =
        ⟨st.managers_members_root_block_error || anyBadOwner f root_oid ms,
         st.managers_are_singletons_error || hasDupFrom cache (managerBases f g ms)⟩ := by
  intro ms
  induction ms with
  | nil =>
    intro st cache
    simp [check_members, anyBadOwner, managerBases, hasDupFrom]
  | cons m rest ih =>
    intro st cache
    obtain ⟨e1, e2⟩ := st
    rw [show check_members f g root_oid (m :: rest) ⟨e1, e2⟩ cache =
      check_members f g root_oid rest
        (check_manager f g root_oid m.classId m.owner ⟨e1, e2⟩ cache).1
        (check_manager f g root_oid m.classId m.owner ⟨e1, e2⟩ cache).2 from rfl]
    by_cases hm : f m.classId = true
    · rw [check_manager_manager f g root_oid m.classId m.owner e1 e2 cache hm]
      rw [ih]
      simp [anyBadOwner, managerBases, hasDupFrom, List.any_cons, List.filter_cons, hm,
        Bool.or_assoc]
    · have hm2 : f m.classId = false := by simpa using hm
      rw [check_manager_not_manager f g root_oid m.classId m.owner ⟨e1, e2⟩ cache hm2]
      rw [ih]
      simp [anyBadOwner, managerBases, List.any_cons, List.filter_cons, hm2]

mutual
/-- C4 amended: after the full walk, managers_members_root_block_error is
set exactly when it was set before or some block anywhere in the tree
advertises a manager member whose owner is not the root-block oid; and
managers_are_singletons_error is set exactly when it was set before or
some single block advertises two manager members sharing a base manager
type -- duplicate base manager types spread across different blocks do
not set it, because the manager cache is emptied per block. -/
theorem C4_amended_manager_flags (f : List Int → Bool) (g : List Int → String)
    (root_oid : Int) :
    ∀ (b : NcBlockT) (st : ManagerState),
      check_block_managers f g root_oid b st =
        ⟨st.managers_members_root_block_error || treeBadOwner f root_oid b,
         st.managers_are_singletons_error || treeDupManagers f g b⟩
  | .mk oid role members children, st => by
    have hc := C4_children_manager_flags f g root_oid children st
    simp only [check_block_managers]
    rw [hc, check_members_spec f g root_oid members]
    simp [treeBadOwner, treeDupManagers, hasDupFrom_eq, any_contains_nil, Bool.or_assoc]

theorem C4_children_manager_flags (f : List Int → Bool) (g : List Int → String)
    (root_oid : Int) :
    ∀ (cs : NcChildren) (st : ManagerState),
      check_block_children f g root_oid cs st =
        ⟨st.managers_members_root_block_error || childrenBadOwner f root_oid cs,
         st.managers_are_singletons_error || childrenDupManagers f g cs⟩
  | .nil, st => by
    simp [check_block_children, childrenBadOwner, childrenDupManagers]
  | .obj o r rest, st => by
    rw [show check_block_children f g root_oid (.obj o r rest) st =
      check_block_children f g root_oid rest st from rfl]
    rw [C4_children_manager_flags f g root_oid rest st]
    simp [childrenBadOwner, childrenDupManagers]
  | .block b rest, st => by
    rw [show check_block_children f g root_oid (.block b rest) st =
      check_block_children f g root_oid rest (check_block_managers f g root_oid b st) from rfl]
    rw [C4_amended_manager_flags f g root_oid b st]
    rw [C4_children_manager_flags f g root_oid rest _]
    simp [childrenBadOwner, childrenDupManagers, Bool.or_assoc]
end

/-- The four property reads issued by `nc_object_factory` (the numeric
property identifiers live in IS12Utils and are elided). -/
inductive NcProp where
  | runtimeConstraints : NcProp
  | members : NcProp
  | controlClasses : NcProp
  | datatypes : NcProp
deriving DecidableEq, Repr

mutual
/-- Modelled from the spec: the mirror-model node built by
nc_object_factory -- a plain NcObject, an NcClassManager carrying the
fetched descriptor catalogs, or an NcBlock carrying its raw advertised
member-descriptor value plus the built children. -/
inductive MirrorNode where
  | objNode (classId : List Int) (oid : Int) (role : String)
      (runtimeConstraints : Option JValue) : MirrorNode
  | classManagerNode (classId : List Int) (oid : Int) (role : String)
      (classDescriptors : JFields) (datatypeDescriptors : JFields)
      (runtimeConstraints : Option JValue) : MirrorNode
  | blockNode (classId : List Int) (oid : Int) (role : String)
      (memberDescriptors : JValue) (runtimeConstraints : Option JValue)
      (children : MirrorNodes) : MirrorNode
deriving DecidableEq, Repr

/-- The child list of a built block. -/
inductive MirrorNodes where
  | nil : MirrorNodes
  | cons (head : MirrorNode) (tail : MirrorNodes) : MirrorNodes
deriving DecidableEq, Repr
end

/-- The block-family test `len(class_id) > 1 and class_id[0] == 1 and
class_id[1] == 1` (line 597). -/
def isBlockClass : List Int → Bool
  | a :: b :: _ => a == 1 && b == 1
  | _ => false

/-- The class-manager-family test `len(class_id) > 2 and class_id[0] == 1
and class_id[1] == 3 and class_id[2] == 2` (line 612). -/
def isClassManagerClass : List Int → Bool
  | a :: b :: c :: _ => a == 1 && b == 3 && c == 2
  | _ => false

/-- Reads a JSON list as a list of integers (a classId). -/
def parseClassId : JList → Option (List Int)
  | .nil => some []
  | .cons (.int n) t => (parseClassId t).map (n :: ·)
  | .cons _ _ => none

/-- Extracts m['classId'], m['oid'] and m['role'] from an advertised
member descriptor; a malformed descriptor raises in the source. -/
def parseMember (m : JValue) : Option (List Int × Int × String) :=
  match jget m "classId", jget m "oid", jget m "role" with
  | some (.arr l), some (.int oid), some (.str role) =>
    (parseClassId l).map (fun cid => (cid, oid, role))
  | _, _, _ => none

/-- The key `".".join(map(str, classId))` (line 215). -/
def classIdKey (cid : List Int) : String :=
  String.intercalate "." (cid.map toString)

/-- One entry of the descriptor dictionary of
`get_class_manager_descriptors` (lines 213-216): keyed by the joined
classId when that field is truthy, by the name otherwise. -/
def cm_descriptor_entry (r : JValue) : Option (String × JValue) :=
  match jget r "name" with
  | some (.str name) =>
    match jget r "classId" with
    | some cid =>
      if truthy cid then
        match cid with
        | .arr l => (parseClassId l).map (fun ints => (classIdKey ints, r))
        | _ => none
      else some (name, r)
    | none => some (name, r)
  | _ => none

/-- Builds the descriptor dictionary; prepending while folding left makes
first-match lookup agree with the last-wins Python dict comprehension. -/
def cm_descriptors_aux : JList → JFields → Option JFields
  | .nil, acc => some acc
  | .cons r t, acc =>
    match cm_descriptor_entry r with
    | some (k, v) => cm_descriptors_aux t (.cons k v acc)
    | none => none

/-- Python exceptions aborting a `nc_object_factory` run, plus fuel
exhaustion standing in for unbounded recursion over a cyclic remote
model. -/
inductive FactoryError where
  | fuelOut : FactoryError
  | badValue (v : JValue) : FactoryError
deriving DecidableEq, Repr

/-- `get_property` as called by the factory (lines 423-433): the read
oracle is indexed by oid and property; a raised read is recorded as a
device-model error message and yields None. -/
def factory_get_property (dev : Int → NcProp → Except String JValue) (oid : Int)
    (p : NcProp) (context : String) (errs : List String) : Option JValue × List String :=
  match dev oid p with
  | .ok v => (some v, errs)
  | .error detail =>
    (none, errs ++ [context ++ "Error getting property: " ++ detail ++ "; "])

/-- `get_class_manager_descriptors` (lines 207-218): a falsy response
yields None, otherwise the keyed descriptor dictionary. -/
def get_class_manager_descriptors (dev : Int → NcProp → Except String JValue) (oid : Int)
    (p : NcProp) (context : String) (errs : List String) :
    Except FactoryError (Option JFields × List String) :=
  match factory_get_property dev oid p context errs with
  | (none, errs1) => .ok (none, errs1)
  | (some v, errs1) =>
    if !truthy v then .ok (none, errs1)
    else
      match v with
      | .arr l =>
        match cm_descriptors_aux l .nil with
        | some fs => .ok (some fs, errs1)
        | none => .error (.badValue v)
      | _ => .error (.badValue v)

/-- The member loop of the block branch (lines 605-608): each member is
built recursively through `rec`; a child whose build yields None is
omitted and the loop continues with the remaining members. -/
def build_children (rec : List Int → Int → String → List String →
    Except FactoryError (Option MirrorNode × List String)) :
    JList → List String → Except FactoryError (MirrorNodes × List String)
  | .nil, errs => .ok (.nil, errs)
  | .cons m t, errs =>
    match parseMember m with
    | none => .error (.badValue m)
    | some (cid, moid, mrole) =>
      match rec cid moid mrole errs with
      | .error e => .error e
      | .ok (child, errs1) =>
        match build_children rec t errs1 with
        | .error e => .error e
        | .ok (rest, errs2) =>
          .ok (match child with
               | some c => .cons c rest
               | none => rest, errs2)

/-- Embeds `nc_object_factory` (lines 589-626).  The remote device is the
oracle `dev`; fuel bounds the recursion depth.  Runtime constraints are
fetched first (absence after a failed read is None); a block whose member
fetch yields no data -- a raised read or a successfully read falsy value
-- builds to None, as does a class manager with a falsy descriptor
response; otherwise the node is built, recursing over block members. -/
def nc_object_factory (dev : Int → NcProp → Except String JValue) :
    Nat → List Int → Int → String → List String →
    Except FactoryError (Option MirrorNode × List String)
  | 0, _, _, _, _ => .error .fuelOut
  | fuel + 1, class_id, oid, role, errs =>
    let rc := factory_get_property dev oid .runtimeConstraints (role ++ ": ") errs
    if isBlockClass class_id then
      match factory_get_property dev oid .members (role ++ ": ") rc.2 with
      | (none, errs1) => .ok (none, errs1)
      | (some v, errs1) =>
        if !truthy v then .ok (none, errs1)
        else
          match v with
          | .arr l =>
            match build_children (nc_object_factory dev fuel) l errs1 with
            | .error e => .error e
            | .ok (children, errs2) =>
              .ok (some (.blockNode class_id oid role v rc.1 children), errs2)
          | _ => .error (.badValue v)
    else if isClassManagerClass class_id then
      match get_class_manager_descriptors dev oid .controlClasses (role ++ ": ") rc.2 with
      | .error e => .error e
      | .ok (cds, errs1) =>
        match get_class_manager_descriptors dev oid .datatypes (role ++ ": ") errs1 with
        | .error e => .error e
        | .ok (dds, errs2) =>
          match cds, dds with
          | some c, some d => .ok (some (.classManagerNode class_id oid role c d rc.1), errs2)
          | _, _ => .ok (none, errs2)
    else
      .ok (some (.objNode class_id oid role rc.1), rc.2)

/-- A well-formed member descriptor advertising a child block with oid 2. -/
def c5_member : JValue :=
  .obj (.cons "classId" (.arr (.cons (.int 1) (.cons (.int 1) .nil)))
    (.cons "oid" (.int 2) (.cons "role" (.str "branch") .nil)))

/-- A device whose root block (oid 1) advertises one child block whose
member list reads back successfully as null; every other read succeeds
with null. -/
def c5_dev : Int → NcProp → Except String JValue := fun oid p =>
  if oid == 1 then
    match p with
    | .members => .ok (.arr (.cons c5_member .nil))
    | _ => .ok .null
  else .ok .null

/-- C5 counterexample: the child block build fails (its member fetch
succeeds but yields null), the child is omitted from the root block, yet
the returned device-model error list stays empty -- the omission is not
recorded as a defect, because only a raised read records one. -/
theorem C5_counterexample_silent_omission :
    nc_object_factory c5_dev 2 [1, 1] 1 "root" [] =
      .ok (some (.blockNode [1, 1] 1 "root" (.arr (.cons c5_member .nil)) (some .null) .nil),
        []) := by
  decide

/-- C5 amended: for a block-family classId, a member fetch that raises
returns no node with the read failure recorded, and a member fetch that
succeeds with falsy data returns no node recording nothing; a member
whose recursive build yields no node is omitted while the loop continues
with the remaining members; and a successful member list builds the block
node around the recursively built children. -/
theorem C5_amended_factory_block_policy (dev : Int → NcProp → Except String JValue)
    (fuel : Nat) (class_id : List Int) (oid : Int) (role : String) (errs : List String)
    (hb : isBlockClass class_id = true) :
    (∀ d, dev oid .members = .error d →
      nc_object_factory dev (fuel + 1) class_id oid role errs =
        .ok (none, (factory_get_property dev oid .runtimeConstraints (role ++ ": ") errs).2 ++
          [role ++ ": " ++ "Error getting property: " ++ d ++ "; "])) ∧
    (∀ v, dev oid .members = .ok v → truthy v = false →
      nc_object_factory dev (fuel + 1) class_id oid role errs =
        .ok (none, (factory_get_property dev oid .runtimeConstraints (role ++ ": ") errs).2)) ∧
    (∀ m t errs0 cid moid mrole errs1, parseMember m = some (cid, moid, mrole) →
      nc_object_factory dev fuel cid moid mrole errs0 = .ok (none, errs1) →
      build_children (nc_object_factory dev fuel) (.cons m t) errs0 =
        build_children (nc_object_factory dev fuel) t errs1) ∧
    (∀ l children errs2, dev oid .members = .ok (.arr l) → truthy (.arr l) = true →
      build_children (nc_object_factory dev fuel) l
          (factory_get_property dev oid .runtimeConstraints (role ++ ": ") errs).2 =
        .ok (children, errs2) →
      nc_object_factory dev (fuel + 1) class_id oid role errs =
        .ok (some (.blockNode class_id oid role (.arr l)
          (factory_get_property dev oid .runtimeConstraints (role ++ ": ") errs).1 children),
          errs2)) := by
  refine ⟨?_, ?_, ?_, ?_⟩
  · intro d hd
    simp [nc_object_factory, hb, factory_get_property, hd]
  · intro v hv htr
    simp [nc_object_factory, hb, factory_get_property, hv, htr]
  · intro m t errs0 cid moid mrole errs1 hpm hrec
    simp only [build_children, hpm, hrec]
    cases hres : build_children (nc_object_factory dev fuel) t errs1 with
    | error e => rfl
    | ok p =>
      obtain ⟨rest, errs2⟩ := p
      rfl
  · intro l children errs2 hm htr hbc
    simp only [nc_object_factory, hb, if_true]
    rw [show factory_get_property dev oid .members (role ++ ": ")
        (factory_get_property dev oid .runtimeConstraints (role ++ ": ") errs).2 =
      (some (.arr l), (factory_get_property dev oid .runtimeConstraints
        (role ++ ": ") errs).2) from by simp [factory_get_property, hm]]
    simp [htr, hbc]

/-- Witness for C5 amended at the counterexample device: the child block
with oid 2 reads a null member list, so its build returns no node and no
error. -/
theorem C5_amended_factory_block_policy_witness :
    nc_object_factory c5_dev 2 [1, 1] 2 "branch" [] = .ok (none, []) := by
  have h := (C5_amended_factory_block_policy c5_dev 1 [1, 1] 2 "branch" [] (by decide)).2.1
    .null (by decide) (by decide)
  simpa [factory_get_property] using h

/-- One parsed notification as `test_32` reads it: oid, eventId, and the
eventData fields propertyId, changeType, value, sequenceItemIndex. -/
structure NcNotification where
  oid : Int
  eventId : Int
  propertyId : JValue
  changeType : Int
  value : JValue
  sequenceItemIndex : Option Int
deriving DecidableEq, Repr

/-- The error messages `test_32` can append, structured: the first four
carry the offending oid as the message context does. -/
inductive T32Err where
  | unexpectedEventType (oid : Int) (eventId : Int) : T32Err
  | unexpectedChangeType (oid : Int) (changeType : Int) : T32Err
  | unexpectedValue (oid : Int) (value : JValue) : T32Err
  | unexpectedSeqIndex (oid : Int) (index : Int) : T32Err
  | notifsNotReceived (oids : List Int) : T32Err
  | noNotifsReceived : T32Err
deriving DecidableEq, Repr

/-- The inner notification loop of `test_32` (lines 1389-1414) for one
write of `label` to `oid`: notifications for other oids are ignored, an
unexpected event type is flagged, a different propertyId skips the rest,
and a matching notification is checked for changeType, value and
sequenceItemIndex and counted.  `pce`, `ulp` and `vcc` are the
PROPERTY_CHANGED event id, USER_LABEL property id and ValueChanged change
type (enumeration values living in IS12Utils). -/
def process_notifications (pce : Int) (ulp : JValue) (vcc : Int) (oid : Int)
    (label : JValue) : List NcNotification → List T32Err × Nat → List T32Err × Nat
  | [], st => st
  | n :: rest, (es, count) =>
    if n.oid == oid then
      let es1 := if n.eventId != pce then es ++ [.unexpectedEventType oid n.eventId] else es
      if n.propertyId != ulp then
        process_notifications pce ulp vcc oid label rest (es1, count)
      else
        let es2 := if n.changeType != vcc then es1 ++ [.unexpectedChangeType oid n.changeType]
          else es1
        let es3 := if n.value != label then es2 ++ [.unexpectedValue oid n.value] else es2
        let es4 := match n.sequenceItemIndex with
          | some i => es3 ++ [.unexpectedSeqIndex oid i]
          | none => es3
        process_notifications pce ulp vcc oid label rest (es4, count + 1)
    else process_notifications pce ulp vcc oid label rest (es, count)

/-- The probe label written first: `"NMOS Testing Tool " + str(oid)`. -/
def newUserLabel (oid : Int) : JValue :=
  .str ("NMOS Testing Tool " ++ toString oid)

/-- Both capture windows of one probed oid (write of the new label, then
the restoring write of the old label), threading errors and the count. -/
def test32_per_oid (pce : Int) (ulp : JValue) (vcc : Int)
    (notifs : Int → Bool → List NcNotification) (oldLabel : Int → JValue) (oid : Int)
    (es : List T32Err) : List T32Err × Nat :=
  process_notifications pce ulp vcc oid (oldLabel oid) (notifs oid true)
    (process_notifications pce ulp vcc oid (newUserLabel oid) (notifs oid false) (es, 0))

/-- The outer loop of `test_32` over the monitored oids, returning the
accumulated errors and the per-oid counts. -/
def test32_loop (pce : Int) (ulp : JValue) (vcc : Int)
    (notifs : Int → Bool → List NcNotification) (oldLabel : Int → JValue) :
    List Int → List T32Err → List T32Err × List (Int × Nat)
  | [], es => (es, [])
  | oid :: rest, es =>
    let r := test32_per_oid pce ulp vcc notifs oldLabel oid es
    let rr := test32_loop pce ulp vcc notifs oldLabel rest r.1
    (rr.1, (oid, r.2) :: rr.2)

def insertSorted (x : Int) : List Int → List Int
  | [] => [x]
  | y :: t => if x ≤ y then x :: y :: t else y :: insertSorted x t

/-- `sorted(...)` on the offending oids. -/
def sortInts : List Int → List Int
  | [] => []
  | x :: t => insertSorted x (sortInts t)

/-- Embeds the notification checking of `test_32` (lines 1378-1422): the
loop over the monitored oids followsed by the final count verdicts
`if not all(v == 2 ...)` naming the sorted offending oids and the
unreachable-for-nonempty `elif not any(v == 2 ...)`.  The monitored oid
list mirrors `dict.fromkeys(...)`: callers pass it deduplicated. -/
def test32_check (pce : Int) (ulp : JValue) (vcc : Int)
    (notifs : Int → Bool → List NcNotification) (oldLabel : Int → JValue)
    (oids : List Int) : List T32Err × List (Int × Nat) :=
  let r := test32_loop pce ulp vcc notifs oldLabel oids []
  if !(r.2.all (fun c => c.2 == 2)) then
    (r.1 ++ [.notifsNotReceived (sortInts ((r.2.filter (fun c => c.2 != 2)).map Prod.fst))],
      r.2)
  else if !(r.2.any (fun c => c.2 == 2)) then
    (r.1 ++ [.noNotifsReceived], r.2)
  else (r.1, r.2)

/-- Declarative spec: the errors one notification contributes for a write
of `label` to `oid`. -/
def notification_errors (pce : Int) (ulp : JValue) (vcc : Int) (oid : Int) (label : JValue)
    (n : NcNotification) : List T32Err :=
  if n.oid == oid then
    (if n.eventId != pce then [.unexpectedEventType oid n.eventId] else []) ++
    (if n.propertyId != ulp then [] else
      (if n.changeType != vcc then [.unexpectedChangeType oid n.changeType] else []) ++
      (if n.value != label then [.unexpectedValue oid n.value] else []) ++
      (match n.sequenceItemIndex with
       | some i => [.unexpectedSeqIndex oid i]
       | none => []))
  else []

/-- Declarative spec: the number of matching notifications (same oid,
USER_LABEL propertyId) one oid accumulates across both capture windows. -/
def matching_count (ulp : JValue) (notifs : Int → Bool → List NcNotification)
    (oid : Int) : Nat :=
  ((notifs oid false ++ notifs oid true).filter
    (fun n => n.oid == oid && !(n.propertyId != ulp))).length

/-- Declarative spec: the field-mismatch and event-type errors one probed
oid contributes over both windows. -/
def per_oid_errors (pce : Int) (ulp : JValue) (vcc : Int)
    (notifs : Int → Bool → List NcNotification) (oldLabel : Int → JValue)
    (oid : Int) : List T32Err :=
  ((notifs oid false).map (notification_errors pce ulp vcc oid (newUserLabel oid))).flatten ++
  ((notifs oid true).map (notification_errors pce ulp vcc oid (oldLabel oid))).flatten

/-- Declarative spec: the final count verdicts. -/
def final_count_errors (ulp : JValue) (notifs : Int → Bool → List NcNotification)
    (oids : List Int) : List T32Err :=
  let off := oids.filter (fun o => matching_count ulp notifs o != 2)
  if off != [] then [.notifsNotReceived (sortInts off)]
  else if oids.isEmpty then [.noNotifsReceived]
  else []

theorem process_notifications_spec (pce : Int) (ulp : JValue) (vcc : Int) (oid : Int)
    (label : JValue) :
    ∀ (l : List NcNotification) (es : List T32Err) (c : Nat),
      process_notifications pce ulp vcc oid label l (es, c) =
        (es ++ (l.map (notification_errors pce ulp vcc oid label)).flatten,
         c + (l.filter (fun n => n.oid == oid && !(n.propertyId != ulp))).length) := by
  intro l
  induction l with
  | nil => intro es c; simp [process_notifications]
  | cons n rest ih =>
    intro es c
    by_cases ho : (n.oid == oid) = true
    · by_cases hp : (n.propertyId != ulp) = true
      · by_cases he : (n.eventId != pce) = true <;>
          simp_all [process_notifications, notification_errors, List.append_assoc]
      · have hp2 : (n.propertyId != ulp) = false := by simpa using hp
        cases hsq : n.sequenceItemIndex <;>
          by_cases he : (n.eventId != pce) = true <;>
          by_cases hc : (n.changeType != vcc) = true <;>
          by_cases hv : (n.value != label) = true <;>
          simp_all [process_notifications, notification_errors, List.append_assoc,
            Nat.add_comm, Nat.add_left_comm, Nat.add_assoc]
    · have ho2 : (n.oid == oid) = false := by simpa using ho
      simp [process_notifications, notification_errors, ho2, ih]

theorem test32_loop_spec (pce : Int) (ulp : JValue) (vcc : Int)
    (notifs : Int → Bool → List NcNotification) (oldLabel : Int → JValue) :
    ∀ (oids : List Int) (es : List T32Err),
      test32_loop pce ulp vcc notifs oldLabel oids es =
        (es ++ (oids.map (per_oid_errors pce ulp vcc notifs oldLabel)).flatten,
         oids.map (fun o => (o, matching_count ulp notifs o))) := by
  intro oids
  induction oids with
  | nil => intro es; simp [test32_loop]
  | cons o rest ih =>
    intro es
    simp only [test32_loop, test32_per_oid, process_notifications_spec, ih,
      List.map_cons, List.flatten_cons]
    simp [per_oid_errors, matching_count, List.filter_append, List.append_assoc]

theorem map_pair_all_eq (g : Int → Nat) :
    ∀ (l : List Int),
      (l.map (fun o => (o, g o))).all (fun c => c.2 == 2) = l.all (fun o => g o == 2) := by
  intro l
  induction l with
  | nil => rfl
  | cons o rest ih => simp [ih]

theorem map_pair_any_eq (g : Int → Nat) :
    ∀ (l : List Int),
      (l.map (fun o => (o, g o))).any (fun c => c.2 == 2) = l.any (fun o => g o == 2) := by
  intro l
  induction l with
  | nil => rfl
  | cons o rest ih => simp [ih]

theorem map_pair_filter_fst (g : Int → Nat) :
    ∀ (l : List Int),
      ((l.map (fun o => (o, g o))).filter (fun c => c.2 != 2)).map Prod.fst =
        l.filter (fun o => g o != 2) := by
  intro l
  induction l with
  | nil => rfl
  | cons o rest ih =>
    by_cases hg : (g o != 2) = true
    · simp [List.filter_cons, hg, ih]
    · have hg2 : (g o != 2) = false := by simpa using hg
      simp [List.filter_cons, hg2, ih]

theorem filter_ne_eq_nil_iff_all (g : Int → Nat) :
    ∀ (l : List Int), l.filter (fun o => g o != 2) = [] ↔ l.all (fun o => g o == 2) = true := by
  intro l
  induction l with
  | nil => simp
  | cons o rest ih =>
    by_cases hg : (g o == 2) = true
    · have hg2 : (g o != 2) = false := by simpa [bne] using hg
      simp [List.filter_cons, hg, hg2, ih]
    · have hg2 : (g o != 2) = true := by simpa [bne] using hg
      simp [List.filter_cons, hg, hg2]

/-- C6 amended: the notification check of test_32 accumulates, per oid and
per capture window, an event-type error for every oid-matching
notification with a wrong eventId and changeType/value/sequenceItemIndex
errors for every matching (oid and USER_LABEL propertyId) notification
whose fields deviate from the written label; each oid counts its matching
notifications across BOTH windows together, and the final verdict names
the sorted oids whose total differs from 2 exactly when one exists -- two
matching notifications in one window and none in the other also pass, so
the check does not enforce one notification per write. -/
theorem C6_amended_notification_check (pce : Int) (ulp : JValue) (vcc : Int)
    (notifs : Int → Bool → List NcNotification) (oldLabel : Int → JValue)
    (oids : List Int) :
    test32_check pce ulp vcc notifs oldLabel oids =
      ((oids.map (per_oid_errors pce ulp vcc notifs oldLabel)).flatten ++
        final_count_errors ulp notifs oids,
       oids.map (fun o => (o, matching_count ulp notifs o))) := by
  unfold test32_check
  rw [test32_loop_spec]
  simp only [map_pair_all_eq, map_pair_any_eq, map_pair_filter_fst, List.nil_append]
  by_cases hall : oids.all (fun o => matching_count ulp notifs o == 2) = true
  · have hoff : oids.filter (fun o => matching_count ulp notifs o != 2) = [] :=
      (filter_ne_eq_nil_iff_all _ oids).mpr hall
    cases oids with
    | nil => simp [final_count_errors]
    | cons o rest =>
      have hany : (o :: rest).any (fun o => matching_count ulp notifs o == 2) = true := by
        simp only [List.all_cons, Bool.and_eq_true] at hall
        simp [hall.1]
      simp [hall, hany, final_count_errors, hoff]
  · have hall2 : oids.all (fun o => matching_count ulp notifs o == 2) = false := by
      simpa using hall
    have hoff : ¬(oids.filter (fun o => matching_count ulp notifs o != 2) = []) := by
      intro h
      rw [(filter_ne_eq_nil_iff_all _ oids).mp h] at hall2
      exact Bool.noConfusion hall2
    simp [hall2, final_count_errors, hoff]

/-- The USER_LABEL property identifier. -/
def c6_ulp : JValue := .obj (.cons "level" (.int 1) (.cons "index" (.int 6) .nil))

/-- A notification matching oid 1 with correct event, change type, new
label value and absent sequence index. -/
def c6_good : NcNotification := ⟨1, 1, c6_ulp, 0, newUserLabel 1, none⟩

/-- A device that sends two matching notifications in the first capture
window and none in the second. -/
def c6_notifs : Int → Bool → List NcNotification := fun oid phase =>
  if oid == 1 && phase == false then [c6_good, c6_good] else []

def c6_oldLabel : Int → JValue := fun _ => .str "old"

/-- C6 counterexample: the restoring write yields no matching notification
at all, yet test_32 reports no error, because the two writes are only
checked through the combined per-oid total of 2 -- the claim that each of
the two writes must yield a matching notification is not what the code
enforces. -/
theorem C6_counterexample_single_window_pair :
    test32_check 1 c6_ulp 0 c6_notifs c6_oldLabel [1] = ([], [(1, 2)]) ∧
    c6_notifs 1 true = [] := by
  decide

/-- Boolean subset test on key lists. -/
def keysSubset (a b : List String) : Bool :=
  a.all (fun k => b.contains k)

mutual
/-- Python equality `==` between JSON values as `validate_descriptor`
compares them: structural on scalars and lists (elementwise, in order),
key-set plus per-key equality on dicts (insertion order irrelevant).
Python numeric cross-type equality (True == 1) is not modelled; the
descriptors compared distinguish booleans from numbers. -/
def pyEq : JValue → JValue → Bool
  | .null, .null => true
  | .bool a, .bool b => a == b
  | .int a, .int b => a == b
  | .str a, .str b => a == b
  | .arr xs, .arr ys => pyEqList xs ys
  | .obj fs, .obj gs => keysSubset fs.keys gs.keys && keysSubset gs.keys fs.keys &&
      pyEqFields fs gs
  | _, _ => false

def pyEqList : JList → JList → Bool
  | .nil, .nil => true
  | .cons x xs, .cons y ys => pyEq x y && pyEqList xs ys
  | .nil, .cons _ _ => false
  | .cons _ _, .nil => false

def pyEqFields : JFields → JFields → Bool
  | .nil, _ => true
  | .cons k v t, gs =>
    (match gs.lookup k with
     | some w => pyEq v w
     | none => false) && pyEqFields t gs
end

/-- The failures `validate_descriptor` raises, structured: the key-set
mismatch (labelled missing when every differing key belongs to the
reference), the exact classId comparison, the plain-list comparison, the
scalar comparison, a Python error on malformed input, and fuel
exhaustion standing in for unbounded recursion. -/
inductive VError where
  | keyError (missing : Bool) (diff : List String) (context : String) : VError
  | classIdError (context : String) (expected actual : JValue) : VError
  | seqError (context : String) (expected actual : JValue) : VError
  | valueError (context : String) (expected actual : JValue) : VError
  | pyErr : VError
  | fuelExhausted : VError
deriving DecidableEq, Repr

/-- The symmetric difference `(ref | desc) - (ref & desc)` of the two key
sets (line 159), determinised as a deduplicated list in first-appearance
order (Python renders an unordered set). -/
def keySymmDiff (rks dks : List String) : List String :=
  ((rks ++ dks).dedup).filter (fun k => !(rks.contains k && dks.contains k))

/-- The per-reference-key check in the mapping branch (lines 163-173):
non-structured description fields are skipped, a list-valued classId is
compared exactly, and any other key recurses through `rec`. -/
def fieldOutcome (rec : JValue → JValue → String → Except VError Unit)
    (dfs : JFields) (ctx k : String) (rv : JValue) : Except VError Unit :=
  if k == "description" && !rv.isObj then .ok ()
  else if k == "classId" && rv.isArr then
    match dfs.lookup k with
    | some dv => if pyEq rv dv then .ok () else .error (.classIdError ctx rv dv)
    | none => .error .pyErr
  else
    match dfs.lookup k with
    | some dv => rec rv dv (ctx ++ k ++ "->")
    | none => .error .pyErr

/-- The loop `for key in reference_keys` (line 163); Python dicts have
unique keys, so iterating the key set is iterating the entries. -/
def fieldsLoop (rec : JValue → JValue → String → Except VError Unit)
    (dfs : JFields) (ctx : String) : JFields → Except VError Unit
  | .nil => .ok ()
  | .cons k rv t =>
    match fieldOutcome rec dfs ctx k rv with
    | .ok _ => fieldsLoop rec dfs ctx t
    | .error e => .error e

/-- The mapping branch (lines 154-173): identical key sets demanded
first, reporting the symmetric difference, then the per-key checks. -/
def validateObj (rec : JValue → JValue → String → Except VError Unit)
    (rfs dfs : JFields) (ctx : String) : Except VError Unit :=
  let kdiff := keySymmDiff rfs.keys dfs.keys
  if kdiff != [] then
    .error (.keyError (kdiff.all (fun k => rfs.keys.contains k)) kdiff ctx)
  else fieldsLoop rec dfs ctx rfs

/-- Removes every entry with the given key. -/
def dropKey (k : String) : JFields → JFields
  | .nil => .nil
  | .cons k2 v t => if k2 == k then dropKey k t else .cons k2 v (dropKey k t)

/-- Collapses duplicate keys, first occurrence winning. -/
def dedupFields : JFields → JFields
  | .nil => .nil
  | .cons k v t => .cons k v (dropKey k (dedupFields t))

/-- Accumulates `(item['name'], item)` pairs in reverse order; an item
that is no dict carrying a string name raises in the source. -/
def toNamePairsRev : JList → JFields → Option JFields
  | .nil, acc => some acc
  | .cons item t, acc =>
    match item, jget item "name" with
    | .obj _, some (.str s) => toNamePairsRev t (.cons s item acc)
    | _, _ => none

/-- The dict comprehension `{item['name']: item for item in ...}` (lines
177-178): last occurrence of a name wins, modelled by reversing then
collapsing to unique keys. -/
def toNameMap (l : JList) : Option JFields :=
  (toNamePairsRev l .nil).map dedupFields

/-- Embeds `validate_descriptor` (lines 150-191) with a fuel bound on the
recursion depth: dicts are diffed per key after the key-set check,
non-empty lists of dicts are correlated by name into dicts and diffed as
such, all other lists and the scalars are compared by Python equality,
raising on the first mismatch encountered. -/
def validate_descriptor : Nat → JValue → JValue → String → Except VError Unit
  | 0, _, _, _ => .error .fuelExhausted
  | fuel + 1, reference, descriptor, ctx =>
    match reference with
    | .obj rfs =>
      match descriptor with
      | .obj dfs => validateObj (validate_descriptor fuel) rfs dfs ctx
      | _ => .error .pyErr
    | .arr rs =>
      match rs with
      | .cons h _ =>
        if h.isObj then
          match descriptor with
          | .arr ds =>
            match toNameMap rs, toNameMap ds with
            | some m1, some m2 => validateObj (validate_descriptor fuel) m1 m2 ctx
            | _, _ => .error .pyErr
          | _ => .error .pyErr
        else
          if !pyEq reference descriptor then .error (.seqError ctx reference descriptor)
          else .ok ()
      | .nil =>
        if !pyEq reference descriptor then .error (.seqError ctx reference descriptor)
        else .ok ()
    | _ =>
      if !pyEq reference descriptor then .error (.valueError ctx reference descriptor)
      else .ok ()

theorem fieldsLoop_ok_iff (rec : JValue → JValue → String → Except VError Unit)
    (dfs : JFields) (ctx : String) :
    ∀ (fs : JFields), fieldsLoop rec dfs ctx fs = .ok () ↔
      ∀ p ∈ fs.toList, fieldOutcome rec dfs ctx p.1 p.2 = .ok ()
  | .nil => by simp [fieldsLoop, JFields.toList]
  | .cons k rv t => by
    rw [show fieldsLoop rec dfs ctx (.cons k rv t) =
      (match fieldOutcome rec dfs ctx k rv with
       | .ok _ => fieldsLoop rec dfs ctx t
       | .error e => .error e) from rfl]
    cases ho : fieldOutcome rec dfs ctx k rv with
    | ok u =>
      cases u
      rw [fieldsLoop_ok_iff rec dfs ctx t]
      constructor
      · intro h p hp
        simp only [JFields.toList, List.mem_cons] at hp
        rcases hp with rfl | hp
        · exact ho
        · exact h p hp
      · intro h p hp
        exact h p (by simp [JFields.toList, hp])
    | error e =>
      constructor
      · intro h
        exact absurd h (by simp)
      · intro h
        have := h (k, rv) (by simp [JFields.toList])
        rw [ho] at this
        exact absurd this (by simp)

theorem fieldsLoop_error_at (rec : JValue → JValue → String → Except VError Unit)
    (dfs : JFields) (ctx : String) :
    ∀ (fs : JFields) (pre : List (String × JValue)) (k : String) (rv : JValue)
      (post : List (String × JValue)) (e : VError),
      fs.toList = pre ++ (k, rv) :: post →
      (∀ p ∈ pre, fieldOutcome rec dfs ctx p.1 p.2 = .ok ()) →
      fieldOutcome rec dfs ctx k rv = .error e →
      fieldsLoop rec dfs ctx fs = .error e
  | .nil, pre, k, rv, post, e => by
    intro heq
    simp [JFields.toList] at heq
  | .cons k0 v0 t, pre, k, rv, post, e => by
    intro heq hpre hbad
    rw [show (JFields.cons k0 v0 t).toList = (k0, v0) :: t.toList from rfl] at heq
    cases pre with
    | nil =>
      simp only [List.nil_append, List.cons.injEq, Prod.mk.injEq] at heq
      obtain ⟨⟨rfl, rfl⟩, h2⟩ := heq
      rw [show fieldsLoop rec dfs ctx (.cons k0 v0 t) =
        (match fieldOutcome rec dfs ctx k0 v0 with
         | .ok _ => fieldsLoop rec dfs ctx t
         | .error e => .error e) from rfl]
      rw [hbad]
    | cons p pre2 =>
      simp only [List.cons_append, List.cons.injEq] at heq
      obtain ⟨h1, h2⟩ := heq
      subst h1
      have hp0 : fieldOutcome rec dfs ctx k0 v0 = .ok () := by
        simpa using hpre (k0, v0) (by simp)
      rw [show fieldsLoop rec dfs ctx (.cons k0 v0 t) =
        (match fieldOutcome rec dfs ctx k0 v0 with
         | .ok _ => fieldsLoop rec dfs ctx t
         | .error e => .error e) from rfl]
      rw [hp0]
      exact fieldsLoop_error_at rec dfs ctx t pre2 k rv post e h2
        (fun q hq => hpre q (by simp [hq])) hbad

theorem keySymmDiff_nil_iff (a b : List String) :
    keySymmDiff a b = [] ↔ ∀ k, k ∈ a ↔ k ∈ b := by
  constructor
  · intro h k
    constructor
    · intro hka
      by_contra hkb
      have hmem : k ∈ keySymmDiff a b := by
        simp [keySymmDiff, List.mem_filter, List.mem_dedup, List.contains,
          List.elem_eq_mem, hka, hkb]
      rw [h] at hmem
      exact absurd hmem (List.not_mem_nil k)
    · intro hkb
      by_contra hka
      have hmem : k ∈ keySymmDiff a b := by
        simp [keySymmDiff, List.mem_filter, List.mem_dedup, List.contains,
          List.elem_eq_mem, hka, hkb]
      rw [h] at hmem
      exact absurd hmem (List.not_mem_nil k)
  · intro h
    unfold keySymmDiff
    rw [List.filter_eq_nil_iff]
    intro k hk
    have hab : k ∈ a ∨ k ∈ b := by
      have := List.mem_dedup.mp hk
      simpa [List.mem_append] using this
    have hka : k ∈ a := by
      rcases hab with h1 | h1
      · exact h1
      · exact (h k).mpr h1
    have hkb : k ∈ b := (h k).mp hka
    simp [List.contains, List.elem_eq_mem, hka, hkb]

/-- C3: on two dicts, validate_descriptor raises the key-set error, which
reports the symmetric difference and is labelled missing exactly when
every differing key belongs to the reference, precisely when the key sets
differ -- no field is examined in that case; with equal key sets it
proceeds to the per-reference-key recursive comparison, succeeding
exactly when every reference entry passes, and failing fast with the
error of the first failing entry. -/
theorem C3_validate_descriptor_mapping (rfs dfs : JFields) (ctx : String) (fuel : Nat) :
    (keySymmDiff rfs.keys dfs.keys = [] ↔ (∀ k, k ∈ rfs.keys ↔ k ∈ dfs.keys)) ∧
    (keySymmDiff rfs.keys dfs.keys ≠ [] →
      validate_descriptor (fuel + 1) (.obj rfs) (.obj dfs) ctx =
        .error (.keyError ((keySymmDiff rfs.keys dfs.keys).all
            (fun k => rfs.keys.contains k))
          (keySymmDiff rfs.keys dfs.keys) ctx)) ∧
    (keySymmDiff rfs.keys dfs.keys = [] →
      (validate_descriptor (fuel + 1) (.obj rfs) (.obj dfs) ctx = .ok () ↔
        ∀ p ∈ rfs.toList,
          fieldOutcome (validate_descriptor fuel) dfs ctx p.1 p.2 = .ok ())) ∧
    (keySymmDiff rfs.keys dfs.keys = [] →
      ∀ (pre : List (String × JValue)) (k : String) (rv : JValue)
        (post : List (String × JValue)) (e : VError),
        rfs.toList = pre ++ (k, rv) :: post →
        (∀ p ∈ pre, fieldOutcome (validate_descriptor fuel) dfs ctx p.1 p.2 = .ok ()) →
        fieldOutcome (validate_descriptor fuel) dfs ctx k rv = .error e →
        validate_descriptor (fuel + 1) (.obj rfs) (.obj dfs) ctx = .error e) := by
  refine ⟨keySymmDiff_nil_iff rfs.keys dfs.keys, ?_, ?_, ?_⟩
  · intro hne
    have hne2 : (keySymmDiff rfs.keys dfs.keys != []) = true := by
      simpa using hne
    simp [validate_descriptor, validateObj, hne2]
  · intro heq
    have heq2 : (keySymmDiff rfs.keys dfs.keys != []) = false := by
      simpa using heq
    simp only [validate_descriptor, validateObj, heq2, Bool.false_eq_true, if_false]
    exact fieldsLoop_ok_iff (validate_descriptor fuel) dfs ctx rfs
  · intro heq pre k rv post e hsplit hpre hbad
    have heq2 : (keySymmDiff rfs.keys dfs.keys != []) = false := by
      simpa using heq
    simp only [validate_descriptor, validateObj, heq2, Bool.false_eq_true, if_false]
    exact fieldsLoop_error_at (validate_descriptor fuel) dfs ctx rfs pre k rv post e
      hsplit hpre hbad

/-- Witness for C3: a reference with keys {a} against a live descriptor
with keys {a, b} raises the key error reporting the difference {b},
labelled as additional keys. -/
theorem C3_validate_descriptor_mapping_witness :
    validate_descriptor 1 (.obj (.cons "a" (.int 1) .nil))
      (.obj (.cons "a" (.int 1) (.cons "b" (.int 2) .nil))) "c" =
      .error (.keyError false ["b"] "c") := by
  have h := (C3_validate_descriptor_mapping (.cons "a" (.int 1) .nil)
    (.cons "a" (.int 1) (.cons "b" (.int 2) .nil)) "c" 0).2.1 (by decide)
  exact h.trans (by decide)

def hasNameStr (v : JValue) : Bool :=
  match jget v "name" with
  | some (.str _) => true
  | _ => false

/-- Every item of the list is a dict carrying a string name. -/
def namedObjs : JList → Bool
  | .nil => true
  | .cons v t => (v.isObj && hasNameStr v) && namedObjs t

/-- The list shape `validate_descriptor` can digest: when the head is a
dict, every item must be a named dict. -/
def wfArrCheck : JList → Bool
  | .nil => true
  | .cons h t => !h.isObj || namedObjs (.cons h t)

def hasKeyB (fs : JFields) (k : String) : Bool :=
  (fs.lookup k).isSome

def nodupKeysB : JFields → Bool
  | .nil => true
  | .cons k _ t => !hasKeyB t k && nodupKeysB t

mutual
/-- Well-formed descriptor data: dicts have unique keys (as Python dicts
do) and lists whose head is a dict consist of named dicts. -/
def wellFormedJ : JValue → Bool
  | .null => true
  | .bool _ => true
  | .int _ => true
  | .str _ => true
  | .arr l => wfArrCheck l && wellFormedL l
  | .obj fs => nodupKeysB fs && wellFormedF fs

def wellFormedL : JList → Bool
  | .nil => true
  | .cons v t => wellFormedJ v && wellFormedL t

def wellFormedF : JFields → Bool
  | .nil => true
  | .cons _ v t => wellFormedJ v && wellFormedF t
end

mutual
/-- Structure size, bounding the recursion depth of the validator. -/
def sizeJ : JValue → Nat
  | .null => 1
  | .bool _ => 1
  | .int _ => 1
  | .str _ => 1
  | .arr l => 1 + sizeL l
  | .obj fs => 1 + sizeF fs

def sizeL : JList → Nat
  | .nil => 0
  | .cons v t => sizeJ v + sizeL t

def sizeF : JFields → Nat
  | .nil => 0
  | .cons _ v t => sizeJ v + sizeF t
end

theorem sizeJ_pos : ∀ (v : JValue), 1 ≤ sizeJ v
  | .null => Nat.le_refl 1
  | .bool _ => Nat.le_refl 1
  | .int _ => Nat.le_refl 1
  | .str _ => Nat.le_refl 1
  | .arr l => Nat.le_add_right 1 (sizeL l)
  | .obj fs => Nat.le_add_right 1 (sizeF fs)

theorem sizeL_mem : ∀ (l : JList) (v : JValue), v ∈ l.toList → sizeJ v ≤ sizeL l
  | .nil, v => by simp [JList.toList]
  | .cons x t, v => by
    intro hv
    rw [show (JList.cons x t).toList = x :: t.toList from rfl] at hv
    rcases List.mem_cons.mp hv with rfl | hv
    · show sizeJ v ≤ sizeJ v + sizeL t
      omega
    · have := sizeL_mem t v hv
      show sizeJ v ≤ sizeJ x + sizeL t
      omega

theorem sizeF_mem : ∀ (fs : JFields) (p : String × JValue), p ∈ fs.toList →
    sizeJ p.2 ≤ sizeF fs
  | .nil, p => by simp [JFields.toList]
  | .cons k x t, p => by
    intro hp
    rw [show (JFields.cons k x t).toList = (k, x) :: t.toList from rfl] at hp
    rcases List.mem_cons.mp hp with rfl | hp
    · show sizeJ x ≤ sizeJ x + sizeF t
      omega
    · have := sizeF_mem t p hp
      show sizeJ p.2 ≤ sizeJ x + sizeF t
      omega

theorem wfL_mem : ∀ (l : JList) (v : JValue), wellFormedL l = true → v ∈ l.toList →
    wellFormedJ v = true
  | .nil, v => by simp [JList.toList]
  | .cons x t, v => by
    intro hwf hv
    rw [show wellFormedL (.cons x t) = (wellFormedJ x && wellFormedL t) from rfl] at hwf
    rw [Bool.and_eq_true] at hwf
    rw [show (JList.cons x t).toList = x :: t.toList from rfl] at hv
    rcases List.mem_cons.mp hv with rfl | hv
    · exact hwf.1
    · exact wfL_mem t v hwf.2 hv

theorem wfF_mem : ∀ (fs : JFields) (p : String × JValue), wellFormedF fs = true →
    p ∈ fs.toList → wellFormedJ p.2 = true
  | .nil, p => by simp [JFields.toList]
  | .cons k x t, p => by
    intro hwf hp
    rw [show wellFormedF (.cons k x t) = (wellFormedJ x && wellFormedF t) from rfl] at hwf
    rw [Bool.and_eq_true] at hwf
    rw [show (JFields.cons k x t).toList = (k, x) :: t.toList from rfl] at hp
    rcases List.mem_cons.mp hp with rfl | hp
    · exact hwf.1
    · exact wfF_mem t p hwf.2 hp

theorem keySymmDiff_self (a : List String) : keySymmDiff a a = [] :=
  (keySymmDiff_nil_iff a a).mpr (fun _ => Iff.rfl)

theorem hasKeyB_of_mem : ∀ (fs : JFields) (p : String × JValue), p ∈ fs.toList →
    hasKeyB fs p.1 = true
  | .nil, p => by simp [JFields.toList]
  | .cons k x t, p => by
    intro hp
    rw [show (JFields.cons k x t).toList = (k, x) :: t.toList from rfl] at hp
    rcases List.mem_cons.mp hp with rfl | hp
    · simp [hasKeyB, JFields.lookup]
    · by_cases he : (k == p.1) = true
      · simp [hasKeyB, JFields.lookup, he]
      · have he2 : (k == p.1) = false := by simpa using he
        have := hasKeyB_of_mem t p hp
        simp only [hasKeyB, JFields.lookup, he2] at this ⊢
        simpa using this

theorem lookup_self_of_nodup : ∀ (fs : JFields), nodupKeysB fs = true →
    ∀ (p : String × JValue), p ∈ fs.toList → fs.lookup p.1 = some p.2
  | .nil, _, p => by simp [JFields.toList]
  | .cons k x t, hnd, p => by
    intro hp
    rw [show nodupKeysB (.cons k x t) = (!hasKeyB t k && nodupKeysB t) from rfl] at hnd
    rw [Bool.and_eq_true] at hnd
    rw [show (JFields.cons k x t).toList = (k, x) :: t.toList from rfl] at hp
    rcases List.mem_cons.mp hp with rfl | hp
    · simp [JFields.lookup]
    · have hkey : hasKeyB t p.1 = true := hasKeyB_of_mem t p hp
      have hne : (k == p.1) = false := by
        by_contra hcc
        have : (k == p.1) = true := by simpa using hcc
        have hk : k = p.1 := by simpa using this
        rw [hk] at hnd
        rw [hkey] at hnd
        simp at hnd
      simp only [JFields.lookup, hne]
      simpa using lookup_self_of_nodup t hnd.2 p hp

theorem mem_dropKey : ∀ (fs : JFields) (k : String) (p : String × JValue),
    p ∈ (dropKey k fs).toList → p ∈ fs.toList
  | .nil, k, p => by simp [dropKey]
  | .cons k2 x t, k, p => by
    intro hp
    by_cases he : (k2 == k) = true
    · rw [show dropKey k (.cons k2 x t) = dropKey k t from by simp [dropKey, he]] at hp
      have := mem_dropKey t k p hp
      simp [JFields.toList, this]
    · have he2 : (k2 == k) = false := by simpa using he
      rw [show dropKey k (.cons k2 x t) = .cons k2 x (dropKey k t) from by
        simp [dropKey, he2]] at hp
      rw [show (JFields.cons k2 x (dropKey k t)).toList = (k2, x) :: (dropKey k t).toList
        from rfl] at hp
      rcases List.mem_cons.mp hp with rfl | hp
      · simp [JFields.toList]
      · have := mem_dropKey t k p hp
        simp [JFields.toList, this]

theorem hasKeyB_dropKey_self : ∀ (fs : JFields) (k : String),
    hasKeyB (dropKey k fs) k = false
  | .nil, k => rfl
  | .cons k2 x t, k => by
    by_cases he : (k2 == k) = true
    · rw [show dropKey k (.cons k2 x t) = dropKey k t from by simp [dropKey, he]]
      exact hasKeyB_dropKey_self t k
    · have he2 : (k2 == k) = false := by simpa using he
      rw [show dropKey k (.cons k2 x t) = .cons k2 x (dropKey k t) from by
        simp [dropKey, he2]]
      simp only [hasKeyB, JFields.lookup, he2]
      exact hasKeyB_dropKey_self t k

theorem hasKeyB_dropKey_le : ∀ (fs : JFields) (k k2 : String),
    hasKeyB (dropKey k fs) k2 = true → hasKeyB fs k2 = true
  | .nil, k, k2 => by simp [dropKey]
  | .cons k3 x t, k, k2 => by
    intro h
    by_cases he : (k3 == k) = true
    · rw [show dropKey k (.cons k3 x t) = dropKey k t from by simp [dropKey, he]] at h
      have := hasKeyB_dropKey_le t k k2 h
      by_cases he3 : (k3 == k2) = true
      · simp [hasKeyB, JFields.lookup, he3]
      · have he4 : (k3 == k2) = false := by simpa using he3
        simp only [hasKeyB, JFields.lookup, he4]
        exact this
    · have he2 : (k3 == k) = false := by simpa using he
      rw [show dropKey k (.cons k3 x t) = .cons k3 x (dropKey k t) from by
        simp [dropKey, he2]] at h
      by_cases he3 : (k3 == k2) = true
      · simp [hasKeyB, JFields.lookup, he3]
      · have he4 : (k3 == k2) = false := by simpa using he3
        simp only [hasKeyB, JFields.lookup, he4] at h ⊢
        exact hasKeyB_dropKey_le t k k2 h

theorem nodup_dropKey : ∀ (fs : JFields) (k : String), nodupKeysB fs = true →
    nodupKeysB (dropKey k fs) = true
  | .nil, k => by simp [dropKey]
  | .cons k2 x t, k => by
    intro hnd
    rw [show nodupKeysB (.cons k2 x t) = (!hasKeyB t k2 && nodupKeysB t) from rfl] at hnd
    rw [Bool.and_eq_true] at hnd
    by_cases he : (k2 == k) = true
    · rw [show dropKey k (.cons k2 x t) = dropKey k t from by simp [dropKey, he]]
      exact nodup_dropKey t k hnd.2
    · have he2 : (k2 == k) = false := by simpa using he
      rw [show dropKey k (.cons k2 x t) = .cons k2 x (dropKey k t) from by
        simp [dropKey, he2]]
      rw [show nodupKeysB (.cons k2 x (dropKey k t)) =
        (!hasKeyB (dropKey k t) k2 && nodupKeysB (dropKey k t)) from rfl]
      rw [Bool.and_eq_true]
      constructor
      · by_contra hcc
        have h3 : hasKeyB (dropKey k t) k2 = true := by
          cases h4 : hasKeyB (dropKey k t) k2
          · rw [h4] at hcc
            simp at hcc
          · rfl
        have := hasKeyB_dropKey_le t k k2 h3
        rw [this] at hnd
        simpa using hnd.1
      · exact nodup_dropKey t k hnd.2

theorem nodup_dedupFields : ∀ (fs : JFields), nodupKeysB (dedupFields fs) = true
  | .nil => rfl
  | .cons k x t => by
    rw [show dedupFields (.cons k x t) = .cons k x (dropKey k (dedupFields t)) from rfl]
    rw [show nodupKeysB (.cons k x (dropKey k (dedupFields t))) =
      (!hasKeyB (dropKey k (dedupFields t)) k && nodupKeysB (dropKey k (dedupFields t)))
      from rfl]
    rw [Bool.and_eq_true]
    constructor
    · rw [hasKeyB_dropKey_self]
      rfl
    · exact nodup_dropKey (dedupFields t) k (nodup_dedupFields t)

theorem mem_dedupFields : ∀ (fs : JFields) (p : String × JValue),
    p ∈ (dedupFields fs).toList → p ∈ fs.toList
  | .nil, p => by simp [dedupFields]
  | .cons k x t, p => by
    intro hp
    rw [show dedupFields (.cons k x t) = .cons k x (dropKey k (dedupFields t)) from rfl] at hp
    rw [show (JFields.cons k x (dropKey k (dedupFields t))).toList =
      (k, x) :: (dropKey k (dedupFields t)).toList from rfl] at hp
    rcases List.mem_cons.mp hp with rfl | hp
    · simp [JFields.toList]
    · have := mem_dedupFields t p (mem_dropKey (dedupFields t) k p hp)
      simp [JFields.toList, this]

theorem toNamePairsRev_spec : ∀ (l : JList), namedObjs l = true →
    ∀ (acc : JFields), ∃ r, toNamePairsRev l acc = some r ∧
      ∀ p ∈ r.toList, (p.2 ∈ l.toList ∧ jget p.2 "name" = some (.str p.1)) ∨ p ∈ acc.toList
  | .nil, _, acc => ⟨acc, rfl, fun p hp => Or.inr hp⟩
  | .cons v t, hn, acc => by
    rw [show namedObjs (.cons v t) = ((v.isObj && hasNameStr v) && namedObjs t) from rfl] at hn
    rw [Bool.and_eq_true, Bool.and_eq_true] at hn
    obtain ⟨⟨hobj, hname⟩, hrest⟩ := hn
    obtain ⟨s, hs⟩ : ∃ s, jget v "name" = some (.str s) := by
      unfold hasNameStr at hname
      cases hj : jget v "name" with
      | none => rw [hj] at hname; simp at hname
      | some w =>
        cases w with
        | str s => exact ⟨s, rfl⟩
        | null => rw [hj] at hname; simp at hname
        | bool b => rw [hj] at hname; simp at hname
        | int n => rw [hj] at hname; simp at hname
        | arr l2 => rw [hj] at hname; simp at hname
        | obj fs2 => rw [hj] at hname; simp at hname
    obtain ⟨vfs, rfl⟩ : ∃ vfs, v = .obj vfs := by
      cases v with
      | obj vfs => exact ⟨vfs, rfl⟩
      | null => simp [JValue.isObj] at hobj
      | bool b => simp [JValue.isObj] at hobj
      | int n => simp [JValue.isObj] at hobj
      | str s2 => simp [JValue.isObj] at hobj
      | arr l2 => simp [JValue.isObj] at hobj
    obtain ⟨r, hr, hrs⟩ := toNamePairsRev_spec t hrest (.cons s (.obj vfs) acc)
    refine ⟨r, ?_, ?_⟩
    · unfold toNamePairsRev
      rw [hs]
      exact hr
    · intro p hp
      rcases hrs p hp with h1 | h1
      · exact Or.inl ⟨by simp [JList.toList, h1.1], h1.2⟩
      · rw [show (JFields.cons s (.obj vfs) acc).toList =
          (s, .obj vfs) :: acc.toList from rfl] at h1
        rcases List.mem_cons.mp h1 with rfl | h1
        · exact Or.inl ⟨by simp [JList.toList], hs⟩
        · exact Or.inr h1

theorem toNameMap_spec (l : JList) (hn : namedObjs l = true) :
    ∃ m, toNameMap l = some m ∧ nodupKeysB m = true ∧
      ∀ p ∈ m.toList, p.2 ∈ l.toList ∧ jget p.2 "name" = some (.str p.1) := by
  obtain ⟨r, hr, hrs⟩ := toNamePairsRev_spec l hn .nil
  refine ⟨dedupFields r, ?_, nodup_dedupFields r, ?_⟩
  · simp [toNameMap, hr]
  · intro p hp
    rcases hrs p (mem_dedupFields r p hp) with h1 | h1
    · exact h1
    · simp [JFields.toList] at h1

theorem keysSubset_self (l : List String) : keysSubset l l = true := by
  simp only [keysSubset, List.all_eq_true]
  intro x hx
  exact contains_mem_true l x hx

mutual
theorem pyEq_refl : ∀ (v : JValue), wellFormedJ v = true → pyEq v v = true
  | .null, _ => rfl
  | .bool b, _ => by simp [pyEq]
  | .int n, _ => by simp [pyEq]
  | .str s, _ => by simp [pyEq]
  | .arr l, h => by
    rw [show wellFormedJ (.arr l) = (wfArrCheck l && wellFormedL l) from rfl] at h
    rw [Bool.and_eq_true] at h
    rw [show pyEq (.arr l) (.arr l) = pyEqList l l from rfl]
    exact pyEqList_refl l h.2
  | .obj fs, h => by
    rw [show wellFormedJ (.obj fs) = (nodupKeysB fs && wellFormedF fs) from rfl] at h
    rw [Bool.and_eq_true] at h
    rw [show pyEq (.obj fs) (.obj fs) =
      (keysSubset fs.keys fs.keys && keysSubset fs.keys fs.keys && pyEqFields fs fs)
      from rfl]
    rw [keysSubset_self, pyEqFields_on fs fs h.2 (lookup_self_of_nodup fs h.1)]
    rfl

theorem pyEqList_refl : ∀ (l : JList), wellFormedL l = true → pyEqList l l = true
  | .nil, _ => rfl
  | .cons v t, h => by
    rw [show wellFormedL (.cons v t) = (wellFormedJ v && wellFormedL t) from rfl] at h
    rw [Bool.and_eq_true] at h
    rw [show pyEqList (.cons v t) (.cons v t) = (pyEq v v && pyEqList t t) from rfl]
    rw [pyEq_refl v h.1, pyEqList_refl t h.2]
    rfl

theorem pyEqFields_on : ∀ (fs gs : JFields), wellFormedF fs = true →
    (∀ p ∈ fs.toList, gs.lookup p.1 = some p.2) → pyEqFields fs gs = true
  | .nil, gs, _, _ => rfl
  | .cons k v t, gs, hwf, hlk => by
    rw [show wellFormedF (.cons k v t) = (wellFormedJ v && wellFormedF t) from rfl] at hwf
    rw [Bool.and_eq_true] at hwf
    have h1 : gs.lookup k = some v := hlk (k, v) (by simp [JFields.toList])
    rw [show pyEqFields (.cons k v t) gs =
      ((match gs.lookup k with
        | some w => pyEq v w
        | none => false) && pyEqFields t gs) from rfl]
    rw [h1]
    show (pyEq v v && pyEqFields t gs) = true
    rw [pyEq_refl v hwf.1,
      pyEqFields_on t gs hwf.2 (fun q hq => hlk q (by simp [JFields.toList, hq]))]
    rfl
end

theorem fieldOutcome_self (rec : JValue → JValue → String → Except VError Unit)
    (fs : JFields) (ctx k : String) (v : JValue)
    (hl : fs.lookup k = some v) (hpy : pyEq v v = true)
    (hrec : ∀ c2, rec v v c2 = .ok ()) :
    fieldOutcome rec fs ctx k v = .ok () := by
  unfold fieldOutcome
  by_cases h1 : (k == "description" && !v.isObj) = true
  · simp [h1]
  · have h1f : (k == "description" && !v.isObj) = false := by simpa using h1
    by_cases h2 : (k == "classId" && v.isArr) = true
    · simp [h1f, h2, hl, hpy]
    · have h2f : (k == "classId" && v.isArr) = false := by simpa using h2
      simp [h1f, h2f, hl, hrec]

theorem validate_refl : ∀ (fuel : Nat) (v : JValue) (ctx : String),
    wellFormedJ v = true → sizeJ v ≤ fuel → validate_descriptor fuel v v ctx = .ok ()
  | 0, v, ctx => by
    intro _ hsz
    have := sizeJ_pos v
    omega
  | fuel + 1, .null, ctx => by
    intro _ _
    simp [validate_descriptor, pyEq]
  | fuel + 1, .bool b, ctx => by
    intro _ _
    simp [validate_descriptor, pyEq]
  | fuel + 1, .int n, ctx => by
    intro _ _
    simp [validate_descriptor, pyEq]
  | fuel + 1, .str s, ctx => by
    intro _ _
    simp [validate_descriptor, pyEq]
  | fuel + 1, .obj fs, ctx => by
    intro hwf hsz
    rw [show wellFormedJ (.obj fs) = (nodupKeysB fs && wellFormedF fs) from rfl] at hwf
    rw [Bool.and_eq_true] at hwf
    show validateObj (validate_descriptor fuel) fs fs ctx = .ok ()
    unfold validateObj
    rw [keySymmDiff_self]
    show fieldsLoop (validate_descriptor fuel) fs ctx fs = .ok ()
    apply (fieldsLoop_ok_iff (validate_descriptor fuel) fs ctx fs).mpr
    intro p hp
    apply fieldOutcome_self
    · exact lookup_self_of_nodup fs hwf.1 p hp
    · exact pyEq_refl p.2 (wfF_mem fs p hwf.2 hp)
    · intro c2
      apply validate_refl fuel p.2 c2 (wfF_mem fs p hwf.2 hp)
      have h1 := sizeF_mem fs p hp
      have h2 : sizeJ (.obj fs) = 1 + sizeF fs := rfl
      omega
  | fuel + 1, .arr .nil, ctx => by
    intro _ _
    simp [validate_descriptor, pyEq, pyEqList]
  | fuel + 1, .arr (.cons h t), ctx => by
    intro hwf hsz
    rw [show wellFormedJ (.arr (.cons h t)) =
      (wfArrCheck (.cons h t) && wellFormedL (.cons h t)) from rfl] at hwf
    rw [Bool.and_eq_true] at hwf
    obtain ⟨hchk, hwl⟩ := hwf
    by_cases hob : h.isObj = true
    · have hnamed : namedObjs (.cons h t) = true := by
        rw [show wfArrCheck (.cons h t) = (!h.isObj || namedObjs (.cons h t)) from rfl] at hchk
        rw [hob] at hchk
        simpa using hchk
      obtain ⟨m, hm, hmnd, hmsub⟩ := toNameMap_spec (.cons h t) hnamed
      simp only [validate_descriptor, hob, if_true, hm]
      unfold validateObj
      rw [keySymmDiff_self]
      show fieldsLoop (validate_descriptor fuel) m ctx m = .ok ()
      apply (fieldsLoop_ok_iff (validate_descriptor fuel) m ctx m).mpr
      intro p hp
      obtain ⟨hmem, hname⟩ := hmsub p hp
      apply fieldOutcome_self
      · exact lookup_self_of_nodup m hmnd p hp
      · exact pyEq_refl p.2 (wfL_mem (.cons h t) p.2 hwl hmem)
      · intro c2
        apply validate_refl fuel p.2 c2 (wfL_mem (.cons h t) p.2 hwl hmem)
        have h1 := sizeL_mem (.cons h t) p.2 hmem
        have h2 : sizeJ (.arr (.cons h t)) = 1 + sizeL (.cons h t) := rfl
        omega
    · have hob2 : h.isObj = false := by simpa using hob
      have hrefl : pyEq (.arr (.cons h t)) (.arr (.cons h t)) = true := by
        apply pyEq_refl
        rw [show wellFormedJ (.arr (.cons h t)) =
          (wfArrCheck (.cons h t) && wellFormedL (.cons h t)) from rfl]
        rw [Bool.and_eq_true]
        exact ⟨hchk, hwl⟩
      simp [validate_descriptor, hob2, hrefl]

/-- The name key an item contributes to the correlation dict. -/
def nameKeyOf (v : JValue) : String :=
  match jget v "name" with
  | some (.str s) => s
  | _ => ""

/-- The name keys of a list of items. -/
def namesOf (l : JList) : List String :=
  l.toList.map nameKeyOf

def JFields.ofList : List (String × JValue) → JFields
  | [] => .nil
  | (k, v) :: t => .cons k v (JFields.ofList t)

/-- The `(name, item)` pairs of a list, in list order. -/
def pairsOf (l : JList) : List (String × JValue) :=
  l.toList.map (fun v => (nameKeyOf v, v))

theorem toList_ofList : ∀ (xs : List (String × JValue)), (JFields.ofList xs).toList = xs
  | [] => rfl
  | (k, v) :: t => by
    rw [show JFields.ofList ((k, v) :: t) = .cons k v (JFields.ofList t) from rfl]
    rw [show (JFields.cons k v (JFields.ofList t)).toList = (k, v) :: (JFields.ofList t).toList
      from rfl]
    rw [toList_ofList t]

theorem ofList_toList : ∀ (fs : JFields), JFields.ofList fs.toList = fs
  | .nil => rfl
  | .cons k v t => by
    rw [show (JFields.cons k v t).toList = (k, v) :: t.toList from rfl]
    rw [show JFields.ofList ((k, v) :: t.toList) = .cons k v (JFields.ofList t.toList) from rfl]
    rw [ofList_toList t]

theorem keys_ofList : ∀ (xs : List (String × JValue)),
    (JFields.ofList xs).keys = xs.map Prod.fst
  | [] => rfl
  | (k, v) :: t => by
    rw [show JFields.ofList ((k, v) :: t) = .cons k v (JFields.ofList t) from rfl]
    rw [show (JFields.cons k v (JFields.ofList t)).keys = k :: (JFields.ofList t).keys from rfl]
    rw [keys_ofList t]
    rfl

theorem hasKeyB_iff_mem_keys : ∀ (fs : JFields) (k : String),
    hasKeyB fs k = true ↔ k ∈ fs.keys
  | .nil, k => by simp [hasKeyB, JFields.lookup, JFields.keys]
  | .cons k2 v t, k => by
    rw [show (JFields.cons k2 v t).keys = k2 :: t.keys from rfl]
    by_cases he : (k2 == k) = true
    · have : k2 = k := by simpa using he
      subst this
      simp [hasKeyB, JFields.lookup]
    · have he2 : (k2 == k) = false := by simpa using he
      have hne : ¬(k = k2) := by
        intro hcc
        subst hcc
        simp at he2
      simp only [hasKeyB, JFields.lookup, he2, List.mem_cons]
      rw [show ((if false = true then some v else t.lookup k).isSome = true) =
        (hasKeyB t k = true) from by simp [hasKeyB]]
      rw [hasKeyB_iff_mem_keys t k]
      constructor
      · intro h
        exact Or.inr h
      · intro h
        rcases h with h | h
        · exact absurd h hne
        · exact h

theorem nodupKeysB_of_nodup : ∀ (fs : JFields), fs.keys.Nodup → nodupKeysB fs = true
  | .nil, _ => rfl
  | .cons k v t, hnd => by
    rw [show (JFields.cons k v t).keys = k :: t.keys from rfl] at hnd
    rw [List.nodup_cons] at hnd
    rw [show nodupKeysB (.cons k v t) = (!hasKeyB t k && nodupKeysB t) from rfl]
    rw [Bool.and_eq_true]
    constructor
    · have : hasKeyB t k = false := by
        cases hh : hasKeyB t k
        · rfl
        · exact absurd ((hasKeyB_iff_mem_keys t k).mp hh) hnd.1
      rw [this]
      rfl
    · exact nodupKeysB_of_nodup t hnd.2

theorem dropKey_of_not_has : ∀ (fs : JFields) (k : String), hasKeyB fs k = false →
    dropKey k fs = fs
  | .nil, k, _ => rfl
  | .cons k2 v t, k, h => by
    by_cases he : (k2 == k) = true
    · exfalso
      have h2 : hasKeyB (.cons k2 v t) k = true := by
        simp [hasKeyB, JFields.lookup, he]
      exact Bool.noConfusion (h2.symm.trans h)
    · have he2 : (k2 == k) = false := by simpa using he
      rw [show dropKey k (.cons k2 v t) = .cons k2 v (dropKey k t) from by simp [dropKey, he2]]
      rw [show hasKeyB (.cons k2 v t) k = ((if k2 == k then some v else t.lookup k).isSome)
        from rfl, he2] at h
      simp at h
      rw [dropKey_of_not_has t k (by simp [hasKeyB, h])]

theorem dedupFields_id : ∀ (fs : JFields), nodupKeysB fs = true → dedupFields fs = fs
  | .nil, _ => rfl
  | .cons k v t, hnd => by
    rw [show nodupKeysB (.cons k v t) = (!hasKeyB t k && nodupKeysB t) from rfl] at hnd
    rw [Bool.and_eq_true] at hnd
    rw [show dedupFields (.cons k v t) = .cons k v (dropKey k (dedupFields t)) from rfl]
    rw [dedupFields_id t hnd.2]
    rw [dropKey_of_not_has t k (by
      cases hh : hasKeyB t k
      · rfl
      · rw [hh] at hnd
        simpa using hnd.1)]

theorem pairs_fst (l : JList) : (pairsOf l).map Prod.fst = namesOf l := by
  simp [pairsOf, namesOf, List.map_map]

theorem mem_pairsOf (l : JList) (k : String) (v : JValue) :
    (k, v) ∈ pairsOf l ↔ v ∈ l.toList ∧ nameKeyOf v = k := by
  simp only [pairsOf, List.mem_map]
  constructor
  · rintro ⟨w, hw, heq⟩
    rw [Prod.mk.injEq] at heq
    obtain ⟨h1, h2⟩ := heq
    subst h2
    exact ⟨hw, h1⟩
  · rintro ⟨hv, hk⟩
    exact ⟨v, hv, by rw [Prod.mk.injEq]; exact ⟨hk, rfl⟩⟩

theorem namedObjs_iff : ∀ (l : JList),
    namedObjs l = true ↔ ∀ v ∈ l.toList, (v.isObj && hasNameStr v) = true
  | .nil => by simp [namedObjs, JList.toList]
  | .cons v t => by
    rw [show namedObjs (.cons v t) = ((v.isObj && hasNameStr v) && namedObjs t) from rfl]
    rw [Bool.and_eq_true, namedObjs_iff t]
    rw [show (JList.cons v t).toList = v :: t.toList from rfl]
    constructor
    · rintro ⟨h1, h2⟩ w hw
      rcases List.mem_cons.mp hw with rfl | hw
      · exact h1
      · exact h2 w hw
    · intro hall
      exact ⟨hall v (by simp), fun w hw => hall w (by simp [hw])⟩

theorem nodupKeys_pairs (l : JList) (hnd : (namesOf l).Nodup) :
    nodupKeysB (JFields.ofList ((pairsOf l).reverse)) = true := by
  apply nodupKeysB_of_nodup
  rw [keys_ofList]
  rw [List.map_reverse]
  rw [pairs_fst]
  exact (List.nodup_reverse).mpr hnd

theorem toNamePairsRev_eq : ∀ (l : JList), namedObjs l = true →
    ∀ (acc : JFields), toNamePairsRev l acc =
      some (JFields.ofList ((pairsOf l).reverse ++ acc.toList))
  | .nil, _, acc => by
    rw [show toNamePairsRev .nil acc = some acc from rfl]
    rw [show pairsOf .nil = [] from rfl]
    rw [List.reverse_nil, List.nil_append, ofList_toList]
  | .cons v t, hn, acc => by
    rw [show namedObjs (.cons v t) = ((v.isObj && hasNameStr v) && namedObjs t) from rfl] at hn
    rw [Bool.and_eq_true, Bool.and_eq_true] at hn
    obtain ⟨⟨hobj, hname⟩, hrest⟩ := hn
    obtain ⟨s, hs⟩ : ∃ s, jget v "name" = some (.str s) := by
      unfold hasNameStr at hname
      cases hj : jget v "name" with
      | none => rw [hj] at hname; simp at hname
      | some w =>
        cases w with
        | str s2 => exact ⟨s2, rfl⟩
        | null => rw [hj] at hname; simp at hname
        | bool b => rw [hj] at hname; simp at hname
        | int n => rw [hj] at hname; simp at hname
        | arr l2 => rw [hj] at hname; simp at hname
        | obj fs2 => rw [hj] at hname; simp at hname
    obtain ⟨vfs, rfl⟩ : ∃ vfs, v = .obj vfs := by
      cases v with
      | obj vfs => exact ⟨vfs, rfl⟩
      | null => simp [JValue.isObj] at hobj
      | bool b => simp [JValue.isObj] at hobj
      | int n => simp [JValue.isObj] at hobj
      | str s2 => simp [JValue.isObj] at hobj
      | arr l2 => simp [JValue.isObj] at hobj
    have hkey : nameKeyOf (.obj vfs) = s := by simp [nameKeyOf, hs]
    unfold toNamePairsRev
    rw [hs]
    show toNamePairsRev t (.cons s (.obj vfs) acc) =
      some (JFields.ofList ((pairsOf (.cons (.obj vfs) t)).reverse ++ acc.toList))
    rw [toNamePairsRev_eq t hrest (.cons s (.obj vfs) acc)]
    congr 1
    rw [show (JFields.cons s (.obj vfs) acc).toList = (s, .obj vfs) :: acc.toList from rfl]
    rw [show pairsOf (.cons (.obj vfs) t) = (s, .obj vfs) :: pairsOf t from by
      simp [pairsOf, JList.toList, hkey]]
    rw [List.reverse_cons, List.append_assoc]
    rfl

theorem toNameMap_eq (l : JList) (hn : namedObjs l = true) (hnd : (namesOf l).Nodup) :
    toNameMap l = some (JFields.ofList ((pairsOf l).reverse)) := by
  unfold toNameMap
  rw [toNamePairsRev_eq l hn .nil]
  rw [show (JFields.nil).toList = [] from rfl, List.append_nil]
  rw [show ((some (JFields.ofList ((pairsOf l).reverse))).map dedupFields) =
    some (dedupFields (JFields.ofList ((pairsOf l).reverse))) from rfl]
  rw [dedupFields_id _ (nodupKeys_pairs l hnd)]

/-- C8: a non-empty reference list whose items are dicts is compared
order-independently -- both lists are correlated by their name keys into
dicts, so any live list that is a permutation of distinctly-named
reference items validates successfully; a reference list that is empty or
holds non-dict items is compared to the live value by Python equality,
which on lists is elementwise and order-sensitive, raising on any
difference -- two scalar lists holding the same values in different
orders raise. -/
theorem C8_validate_descriptor_list_fields (ctx : String) (fuel : Nat) :
    (∀ (h : JValue) (t ds : JList),
      h.isObj = true → namedObjs (.cons h t) = true →
      (namesOf (.cons h t)).Nodup → wellFormedL (.cons h t) = true →
      ds.toList.Perm (JList.cons h t).toList → sizeL (.cons h t) ≤ fuel →
      validate_descriptor (fuel + 1) (.arr (.cons h t)) (.arr ds) ctx = .ok ()) ∧
    (∀ (d : JValue), validate_descriptor (fuel + 1) (.arr .nil) d ctx =
      (if pyEq (.arr .nil) d then .ok () else .error (.seqError ctx (.arr .nil) d))) ∧
    (∀ (h : JValue) (t : JList) (d : JValue), h.isObj = false →
      validate_descriptor (fuel + 1) (.arr (.cons h t)) d ctx =
      (if pyEq (.arr (.cons h t)) d then .ok ()
       else .error (.seqError ctx (.arr (.cons h t)) d))) ∧
    (∀ (a b : Int), a ≠ b →
      validate_descriptor (fuel + 1) (.arr (.cons (.int a) (.cons (.int b) .nil)))
        (.arr (.cons (.int b) (.cons (.int a) .nil))) ctx =
        .error (.seqError ctx (.arr (.cons (.int a) (.cons (.int b) .nil)))
          (.arr (.cons (.int b) (.cons (.int a) .nil))))) := by
  refine ⟨?_, ?_, ?_, ?_⟩
  · intro h t ds hob hnamed hnodup hwl hperm hsz
    have hnds : namedObjs ds = true := by
      apply (namedObjs_iff ds).mpr
      intro v hv
      exact (namedObjs_iff (.cons h t)).mp hnamed v (hperm.mem_iff.mp hv)
    have hnodup_ds : (namesOf ds).Nodup := by
      have hp2 : (namesOf ds).Perm (namesOf (.cons h t)) := hperm.map nameKeyOf
      exact hp2.nodup_iff.mpr hnodup
    have hm1 := toNameMap_eq (.cons h t) hnamed hnodup
    have hm2 := toNameMap_eq ds hnds hnodup_ds
    simp only [validate_descriptor, hob, if_true, hm1, hm2]
    unfold validateObj
    have hkeys : keySymmDiff (JFields.ofList ((pairsOf (.cons h t)).reverse)).keys
        (JFields.ofList ((pairsOf ds).reverse)).keys = [] := by
      apply (keySymmDiff_nil_iff _ _).mpr
      intro k
      rw [keys_ofList, keys_ofList, List.map_reverse, List.map_reverse,
        pairs_fst, pairs_fst]
      rw [List.mem_reverse, List.mem_reverse]
      exact ((hperm.map nameKeyOf).mem_iff).symm
    rw [hkeys]
    show fieldsLoop (validate_descriptor fuel) (JFields.ofList ((pairsOf ds).reverse)) ctx
      (JFields.ofList ((pairsOf (.cons h t)).reverse)) = .ok ()
    apply (fieldsLoop_ok_iff _ _ _ _).mpr
    intro p hp
    rw [toList_ofList] at hp
    obtain ⟨k, v⟩ := p
    obtain ⟨hmem, hname⟩ := (mem_pairsOf _ _ _).mp (List.mem_reverse.mp hp)
    have hvds : v ∈ ds.toList := hperm.mem_iff.mpr hmem
    have hlk : (JFields.ofList ((pairsOf ds).reverse)).lookup k = some v := by
      apply lookup_self_of_nodup _ (nodupKeys_pairs ds hnodup_ds) (k, v)
      rw [toList_ofList]
      exact List.mem_reverse.mpr ((mem_pairsOf ds k v).mpr ⟨hvds, hname⟩)
    apply fieldOutcome_self
    · exact hlk
    · exact pyEq_refl v (wfL_mem (.cons h t) v hwl hmem)
    · intro c2
      apply validate_refl fuel v c2 (wfL_mem (.cons h t) v hwl hmem)
      have := sizeL_mem (.cons h t) v hmem
      omega
  · intro d
    by_cases hpe : pyEq (.arr .nil) d = true
    · simp [validate_descriptor, hpe]
    · have hpe2 : pyEq (.arr .nil) d = false := by simpa using hpe
      simp [validate_descriptor, hpe2]
  · intro h t d hob2
    by_cases hpe : pyEq (.arr (.cons h t)) d = true
    · simp [validate_descriptor, hob2, hpe]
    · have hpe2 : pyEq (.arr (.cons h t)) d = false := by simpa using hpe
      simp [validate_descriptor, hob2, hpe2]
  · intro a b hab
    have hpe : pyEq (.arr (.cons (.int a) (.cons (.int b) .nil)))
        (.arr (.cons (.int b) (.cons (.int a) .nil))) = false := by
      rw [show pyEq (.arr (.cons (.int a) (.cons (.int b) .nil)))
          (.arr (.cons (.int b) (.cons (.int a) .nil))) =
        pyEqList (.cons (.int a) (.cons (.int b) .nil))
          (.cons (.int b) (.cons (.int a) .nil)) from rfl]
      rw [show pyEqList (.cons (.int a) (.cons (.int b) .nil))
          (.cons (.int b) (.cons (.int a) .nil)) =
        (pyEq (.int a) (.int b) &&
          pyEqList (.cons (.int b) .nil) (.cons (.int a) .nil)) from rfl]
      rw [show pyEq (.int a) (.int b) = (a == b) from rfl]
      simp [hab]
    simp [validate_descriptor, JValue.isObj, hpe]

/-- Two named dicts listed in both orders. -/
def c8_item_a : JValue :=
  .obj (.cons "name" (.str "alpha") (.cons "x" (.int 1) .nil))

def c8_item_b : JValue :=
  .obj (.cons "name" (.str "beta") .nil)

/-- Witness for C8: the permuted list of two named dicts validates, and
the same scalar values in swapped order raise. -/
theorem C8_validate_descriptor_list_fields_witness :
    validate_descriptor 6 (.arr (.cons c8_item_a (.cons c8_item_b .nil)))
      (.arr (.cons c8_item_b (.cons c8_item_a .nil))) "c" = .ok () ∧
    validate_descriptor 6 (.arr (.cons (.int 1) (.cons (.int 2) .nil)))
      (.arr (.cons (.int 2) (.cons (.int 1) .nil))) "c" =
      .error (.seqError "c" (.arr (.cons (.int 1) (.cons (.int 2) .nil)))
        (.arr (.cons (.int 2) (.cons (.int 1) .nil)))) := by
  constructor
  · exact (C8_validate_descriptor_list_fields "c" 5).1 c8_item_a
      (.cons c8_item_b .nil) (.cons c8_item_b (.cons c8_item_a .nil))
      (by decide) (by decide) (by decide) (by decide) (by decide) (by decide)
  · exact (C8_validate_descriptor_list_fields "c" 5).2.2.2 1 2 (by decide)
